import Mathlib

/-!
# DrinkingGame: the two-resource acquisition protocol

A shallow embedding of `src/DrinkingGame/main.cpp`.

## Data

* A `Resource*` is an index into `ResourcePool.resources`; `nullptr` is `none`.
* A `std::mutex` is the thread that owns it (`none` when unlocked).  Thread `k`
  is the thread started on `poolOfDrinkers.drinkers[k]`.
* `int` values are `Int`.  What C++ leaves undefined gives `Outcome.undefined`:
  `x++` on `INT_MAX`, an index outside the vector, a null dereference, `% 0`,
  `lock()` on a mutex the caller owns, `unlock()` on a mutex it does not own.
* A call of `myRand()` is a natural number handed to the function: the generator
  is set up with `Init(0, INT_MAX)`.
* `lock()` on a mutex another thread owns gives `Outcome.blocked`.
* `try_lock()` fails on a mutex that is owned.  On a free mutex it may fail too
  (the standard allows it, and another thread may own the mutex for an instant):
  the caller passes `tryLockOk`, which says whether it goes through.
* `std::this_thread::sleep_for` is recorded in a list of `Sleep` events.

## Three views of the code

* The functions `TryToGetResources`, `Drink` and `TryToDrink` are the source
  functions, one call at a time.
* `World.run` runs completed calls of any threads one after the other.
* `Machine.exec` interleaves the threads one shared-memory access at a time; its
  steps use the same pieces (`lockFirst`, `tryLockSecond`, `unlockResource`,
  `useResource`) as the functions, and `steps_make_TryToGetResources` and
  `steps_make_Drink` show that the steps of one thread make up the calls.
-/

namespace DrinkingGame

/-- The largest `int`. -/
def INT_MAX : Int := 2147483647

/-- What a call does: it returns, it waits in `std::mutex::lock`, or it has no defined
behaviour. -/
inductive Outcome (α : Type) where
  | returned (a : α)
  | blocked
  | undefined
  deriving DecidableEq

/-- Source lines 25-30. -/
inductive ResourceType where
  | Unknown
  | Bottle
  | Opener
  deriving DecidableEq

/-- Source lines 32-42. -/
structure Resource where
  id : Int
  useCount : Int
  lockCount : Int
  type : ResourceType
  resourceMutex : Option Nat
  deriving DecidableEq

/-- The constructor `Resource(int id_, ResourceType type_)`, line 39. -/
def Resource.new (id_ : Int) (type_ : ResourceType) : Resource :=
  { id := id_, useCount := 0, lockCount := 0, type := type_, resourceMutex := none }

/-- Source lines 57-61. -/
structure ResourcePool where
  totalResources : Int
  resources : List Resource
  deriving DecidableEq

/-- Source lines 64-80; the two pool pointers and the generator are passed to the
functions instead. -/
structure Drinker where
  id : Int
  drinkCount : Int
  resourceTryCount : Int
  bottle : Option Nat
  opener : Option Nat
  deriving DecidableEq

/-- The constructor `Drinker(int id_, ...)`, lines 73-77. -/
def Drinker.new (id_ : Int) : Drinker :=
  { id := id_, drinkCount := 0, resourceTryCount := 0, bottle := none, opener := none }

/-- The three `sleep_for` calls of `Drink`, named after the duration they are given. -/
inductive Sleep where
  | drinkTime (ms : Int)
  | drunkTime (ms : Int)
  | bathroomTime (ms : Int)
  deriving DecidableEq

/-- The postfix `++` on an `int`. -/
def increment (x : Int) : Option Int :=
  if x < INT_MAX then some (x + 1) else none

/-- The postfix `--` on an `int`. -/
def decrement (x : Int) : Option Int :=
  if -INT_MAX - 1 < x then some (x - 1) else none

/-- Writes `r` through a pointer to `resources[i]`. -/
def ResourcePool.store (pool : ResourcePool) (i : Nat) (r : Resource) : ResourcePool :=
  { pool with resources := pool.resources.set i r }

/-- The statement `p->useCount++` for a pointer `p`. -/
def useResource (pool : ResourcePool) (p : Option Nat) : Option ResourcePool :=
  match p with
  | none => none
  | some i =>
    match pool.resources[i]? with
    | none => none
    | some r =>
      match increment r.useCount with
      | none => none
      | some useCount => some (pool.store i { r with useCount := useCount })

/-- The statement `p->resourceMutex.unlock()` for a pointer `p`, run by thread `tid`. -/
def unlockResource (tid : Nat) (pool : ResourcePool) (p : Option Nat) : Option ResourcePool :=
  match p with
  | none => none
  | some i =>
    match pool.resources[i]? with
    | none => none
    | some r =>
      if r.resourceMutex = some tid then some (pool.store i { r with resourceMutex := none })
      else none

/-- The slot binding of lines 151-156. -/
def bindFirst (currentDrinker : Drinker) (firstType : ResourceType) (trying : Nat) : Drinker :=
  if firstType = ResourceType.Bottle then { currentDrinker with bottle := some trying }
  else { currentDrinker with opener := some trying }

/-- Lines 147-156 of `TryToGetResources`: the blocking `lock()` of the first pick, its
`lockCount++` and the slot binding. -/
def lockFirst (tid : Nat) (currentDrinker : Drinker) (pool : ResourcePool) (trying : Nat) :
    Outcome (Drinker × ResourcePool) :=
  match pool.resources[trying]? with
  | none => .undefined
  | some firstResource =>
    match firstResource.resourceMutex with
    | some owner => if owner = tid then .undefined else .blocked
    | none =>
      match increment firstResource.lockCount with
      | none => .undefined
      | some lockCount =>
        .returned (bindFirst currentDrinker firstResource.type trying,
          pool.store trying
            { firstResource with resourceMutex := some tid, lockCount := lockCount })

/-- Lines 159-171 of `TryToGetResources`: the loop body at index `i`.  The result is the
drinker and the pool when the body runs `return true`, and `none` when the loop goes on.
`tryLockOk` says whether a `try_lock` on a free mutex goes through. -/
def tryLockSecond (tid trying : Nat) (tryLockOk : Bool) (i : Nat) (currentDrinker : Drinker)
    (pool : ResourcePool) : Outcome (Option (Drinker × ResourcePool)) :=
  match pool.resources[trying]?, pool.resources[i]? with
  | some firstResource, some secondResource =>
    if i ≠ trying ∧ secondResource.type ≠ firstResource.type then
      if secondResource.resourceMutex = none ∧ tryLockOk = true then
        match increment secondResource.lockCount with
        | none => .undefined
        | some lockCount =>
          let pool2 := pool.store i
            { secondResource with resourceMutex := some tid, lockCount := lockCount }
          if secondResource.type = ResourceType.Bottle then
            .returned (some ({ currentDrinker with bottle := some i }, pool2))
          else
            .returned (some ({ currentDrinker with opener := some i }, pool2))
      else .returned none
    else .returned none
  | _, _ => .undefined

/-- Lines 158-175 of `TryToGetResources`: the loop over the indices still to visit, and the
failure exit after it. -/
def secondScan (tid trying : Nat) (tryLockOk : Nat → Bool) :
    List Nat → Drinker → ResourcePool → Outcome (Bool × Drinker × ResourcePool)
  | [], currentDrinker, pool =>
    match unlockResource tid pool (some trying) with
    | none => .undefined
    | some pool' => .returned (false, currentDrinker, pool')
  | i :: rest, currentDrinker, pool =>
    match tryLockSecond tid trying (tryLockOk i) i currentDrinker pool with
    | .undefined => .undefined
    | .blocked => .blocked
    | .returned (some (drinker2, pool2)) => .returned (true, drinker2, pool2)
    | .returned none => secondScan tid trying tryLockOk rest currentDrinker pool

/-- Source lines 142-176.  `rnd` is the value of `myRand()`. -/
def TryToGetResources (tid : Nat) (currentDrinker : Drinker) (pool : ResourcePool)
    (rnd : Nat) (tryLockOk : Nat → Bool) : Outcome (Bool × Drinker × ResourcePool) :=
  let totalResources := pool.totalResources
  if totalResources = 0 then .undefined
  else
    let trying := (Int.tmod (rnd : Int) totalResources).toNat
    match lockFirst tid currentDrinker pool trying with
    | .undefined => .undefined
    | .blocked => .blocked
    | .returned (drinker1, pool1) =>
      secondScan tid trying tryLockOk (List.range totalResources.toNat) drinker1 pool1

/-- Lines 132-139 of `Drink`: the pause after the drink. -/
def extraPause (drinkCount drunkTime bathroomTime : Int) : List Sleep :=
  if Int.tmod drinkCount 5 = 0 then [Sleep.drunkTime drunkTime]
  else if Int.tmod drinkCount 10 = 0 then [Sleep.bathroomTime bathroomTime]
  else []

/-- Source lines 115-140.  `r1`, `r2`, `r3` are the three values of `myRand()`. -/
def Drink (tid : Nat) (currentDrinker : Drinker) (pool : ResourcePool) (r1 r2 r3 : Nat) :
    Outcome (Drinker × ResourcePool × List Sleep) :=
  let drinkTime : Int := 20 + Int.tmod (r1 : Int) 20
  let drunkTime : Int := 40 + Int.tmod (r2 : Int) 10
  let bathroomTime : Int := 60 + Int.tmod (r3 : Int) 10
  match useResource pool currentDrinker.bottle with
  | none => .undefined
  | some pool1 =>
    match useResource pool1 currentDrinker.opener with
    | none => .undefined
    | some pool2 =>
      match unlockResource tid pool2 currentDrinker.bottle with
      | none => .undefined
      | some pool3 =>
        match unlockResource tid pool3 currentDrinker.opener with
        | none => .undefined
        | some pool4 =>
          match increment currentDrinker.drinkCount with
          | none => .undefined
          | some drinkCount =>
            .returned
              ({ currentDrinker with bottle := none, opener := none, drinkCount := drinkCount },
                pool4,
                Sleep.drinkTime drinkTime :: extraPause drinkCount drunkTime bathroomTime)

/-- Source lines 178-188.  The result carries the sleeps of the call. -/
def TryToDrink (tid : Nat) (currentDrinker : Drinker) (pool : ResourcePool)
    (rnd : Nat) (tryLockOk : Nat → Bool) (r1 r2 r3 : Nat) :
    Outcome (Bool × Drinker × ResourcePool × List Sleep) :=
  match TryToGetResources tid currentDrinker pool rnd tryLockOk with
  | .undefined => .undefined
  | .blocked => .blocked
  | .returned (true, drinker1, pool1) =>
    match Drink tid drinker1 pool1 r1 r2 r3 with
    | .undefined => .undefined
    | .blocked => .blocked
    | .returned (drinker2, pool2, sleeps) => .returned (true, drinker2, pool2, sleeps)
  | .returned (false, drinker1, pool1) => .returned (false, drinker1, pool1, [])

/-- Source lines 44-55.  The two mutexes and the two condition variables carry no data;
`Condition` names the condition variables. -/
structure DrinkerPool where
  totalDrinkers : Int
  drinkerCount : Int
  startingGunFlag : Bool
  stopDrinkingFlag : Bool
  drinkers : List Drinker
  deriving DecidableEq

/-- The objects `poolOfDrinkers` and `poolOfResources` of `main` (lines 272-273), which all
threads share. -/
structure World where
  poolOfDrinkers : DrinkerPool
  poolOfResources : ResourcePool
  deriving DecidableEq

/-- One completed call by the thread `tid`, which runs on `poolOfDrinkers.drinkers[tid]`,
with the values its `myRand()` and `try_lock` calls produce. -/
inductive Call where
  | tryToGetResources (tid rnd : Nat) (tryLockOk : Nat → Bool)
  | drink (tid r1 r2 r3 : Nat)
  | tryToDrink (tid rnd : Nat) (tryLockOk : Nat → Bool) (r1 r2 r3 : Nat)

/-- Writes the drinker and the pool back after a call of thread `tid`. -/
def World.update (w : World) (tid : Nat) (d : Drinker) (pool : ResourcePool) : World :=
  { poolOfDrinkers := { w.poolOfDrinkers with drinkers := w.poolOfDrinkers.drinkers.set tid d },
    poolOfResources := pool }

/-- The state after one call. -/
def World.call (w : World) : Call → Outcome World
  | .tryToGetResources tid rnd tryLockOk =>
    match w.poolOfDrinkers.drinkers[tid]? with
    | none => .undefined
    | some d =>
      match TryToGetResources tid d w.poolOfResources rnd tryLockOk with
      | .undefined => .undefined
      | .blocked => .blocked
      | .returned (_, d', pool') => .returned (w.update tid d' pool')
  | .drink tid r1 r2 r3 =>
    match w.poolOfDrinkers.drinkers[tid]? with
    | none => .undefined
    | some d =>
      match Drink tid d w.poolOfResources r1 r2 r3 with
      | .undefined => .undefined
      | .blocked => .blocked
      | .returned (d', pool', _) => .returned (w.update tid d' pool')
  | .tryToDrink tid rnd tryLockOk r1 r2 r3 =>
    match w.poolOfDrinkers.drinkers[tid]? with
    | none => .undefined
    | some d =>
      match TryToDrink tid d w.poolOfResources rnd tryLockOk r1 r2 r3 with
      | .undefined => .undefined
      | .blocked => .blocked
      | .returned (_, d', pool', _) => .returned (w.update tid d' pool')

/-- The state after a sequence of calls, each completed before the next starts. -/
def World.run (w : World) : List Call → Outcome World
  | [] => .returned w
  | c :: rest =>
    match w.call c with
    | .undefined => .undefined
    | .blocked => .blocked
    | .returned w' => w'.run rest

/-- The state `main` builds before it starts the threads (lines 296-304): every resource as
`Resource(i, type)` leaves it, with type Bottle or Opener, and every drinker as
`Drinker(i, ...)` leaves it. -/
def World.initial (w : World) : Prop :=
  (∀ r ∈ w.poolOfResources.resources,
    r = Resource.new r.id r.type ∧ (r.type = ResourceType.Bottle ∨ r.type = ResourceType.Opener)) ∧
  (∀ d ∈ w.poolOfDrinkers.drinkers, d = Drinker.new d.id)

instance (w : World) : Decidable w.initial :=
  inferInstanceAs (Decidable (_ ∧ _))

/-- The sum the report prints as the use count, restricted to the resources of one type. -/
def sumUseCount (type : ResourceType) (pool : ResourcePool) : Int :=
  (pool.resources.map fun r => if r.type = type then r.useCount else 0).sum

/-- The sum the report prints as `Drinks` (line 250). -/
def sumDrinkCount (drinkers : List Drinker) : Int :=
  (drinkers.map fun d => d.drinkCount).sum

/-- The thread that owns the mutex of `resources[i]`, if there is one. -/
def ownerAt (pool : ResourcePool) (i : Nat) : Option Nat :=
  match pool.resources[i]? with
  | none => none
  | some r => r.resourceMutex

/-- Thread `tid` owns no resource mutex. -/
def holdsNoLock (tid : Nat) (pool : ResourcePool) : Prop :=
  ∀ r ∈ pool.resources, r.resourceMutex ≠ some tid

instance (tid : Nat) (pool : ResourcePool) : Decidable (holdsNoLock tid pool) :=
  inferInstanceAs (Decidable (∀ r ∈ pool.resources, r.resourceMutex ≠ some tid))

/-- The counter relation between calls: a resource has been locked at least as often as it
has been used, and once more while its mutex is owned. -/
def lockedBeforeUsed (r : Resource) : Prop :=
  r.useCount + (if r.resourceMutex = none then 0 else 1) ≤ r.lockCount

/-- The type of `resources[i]`, if the index is inside the vector. -/
def typeAt (pool : ResourcePool) (i : Nat) : Option ResourceType :=
  match pool.resources[i]? with
  | none => none
  | some r => some r.type

/-- A bottle slot that is set points to a Bottle and an opener slot that is set points to an
Opener. -/
def slotsTyped (d : Drinker) (pool : ResourcePool) : Prop :=
  (∀ b, d.bottle = some b → typeAt pool b = some ResourceType.Bottle) ∧
  (∀ o, d.opener = some o → typeAt pool o = some ResourceType.Opener)

/-- What holds between calls on a pool of bottles and openers: the slots are typed, and the
use counts of the bottles, the use counts of the openers and the drink counts of the
drinkers have the same sum. -/
def World.conserved (w : World) : Prop :=
  (∀ r ∈ w.poolOfResources.resources,
    r.type = ResourceType.Bottle ∨ r.type = ResourceType.Opener) ∧
  (∀ d ∈ w.poolOfDrinkers.drinkers, slotsTyped d w.poolOfResources) ∧
  sumUseCount ResourceType.Bottle w.poolOfResources = sumDrinkCount w.poolOfDrinkers.drinkers ∧
  sumUseCount ResourceType.Opener w.poolOfResources = sumDrinkCount w.poolOfDrinkers.drinkers

/-- The two condition variables of `DrinkerPool` (lines 51 and 53). -/
inductive Condition where
  | drinkerCountCondition
  | startingGunCondition
  deriving DecidableEq

/-- Lines 207-214 of `DrinkerThreadEntrypoint`: the drinker counts itself in; the result is
the pool and the condition variables the block notifies. -/
def signalReady (drinkerPool : DrinkerPool) : Option (DrinkerPool × List Condition) :=
  match increment drinkerPool.drinkerCount with
  | none => none
  | some drinkerCount =>
    if drinkerCount = drinkerPool.totalDrinkers then
      some ({ drinkerPool with drinkerCount := drinkerCount }, [Condition.startingGunCondition])
    else
      some ({ drinkerPool with drinkerCount := drinkerCount }, [])

/-- Lines 226-233 of `DrinkerThreadEntrypoint`: the drinker counts itself out; the result is
the pool and the condition variables the block notifies. -/
def signalDone (drinkerPool : DrinkerPool) : Option (DrinkerPool × List Condition) :=
  match decrement drinkerPool.drinkerCount with
  | none => none
  | some drinkerCount =>
    if drinkerCount = 0 then
      some ({ drinkerPool with drinkerCount := drinkerCount }, [Condition.drinkerCountCondition])
    else
      some ({ drinkerPool with drinkerCount := drinkerCount }, [])

/-- Source lines 81-88: the condition variable the driver sleeps on when it finds the loop
test true, `none` when it falls through. -/
def WaitForAllDrinkersToBeReady (poolOfDrinkers : DrinkerPool) : Option Condition :=
  if poolOfDrinkers.drinkerCount < poolOfDrinkers.totalDrinkers then
    some Condition.drinkerCountCondition
  else none

/-- Source lines 98-105, read as `WaitForAllDrinkersToBeReady`. -/
def WaitForAllDrinkersToFinish (poolOfDrinkers : DrinkerPool) : Option Condition :=
  if poolOfDrinkers.drinkerCount > 0 then some Condition.drinkerCountCondition else none

/-- What holds between calls on a pool of one type: nothing was used, no mutex is owned,
nobody drank. -/
def World.dry (type : ResourceType) (w : World) : Prop :=
  (∀ r ∈ w.poolOfResources.resources,
    r.type = type ∧ r.useCount = 0 ∧ r.resourceMutex = none) ∧
  (∀ d ∈ w.poolOfDrinkers.drinkers, d.drinkCount = 0)

/-! ### The threads, one shared-memory access at a time -/

/-- Where a drinker thread stands in `StartDrinker` (lines 190-199) and the calls below it. -/
inductive Pc where
  /-- Line 193, before the call of `TryToDrink`. -/
  | tryToDrink
  /-- Line 148, in `firstResource->resourceMutex.lock()`; `trying` is the index of line 145. -/
  | lockFirst (trying : Nat)
  /-- Line 158, at the loop test with index `i`; the first resource is locked. -/
  | scan (trying i : Nat)
  /-- Line 183, `TryToGetResources` has returned true; `Drink` up to line 126 comes next. -/
  | drink
  /-- Line 127 of `Drink`. -/
  | unlockOpener
  /-- Line 195, the test of `stopDrinkingFlag`. -/
  | checkStop
  /-- After line 199: `StartDrinker` has returned. -/
  | stopped
  deriving DecidableEq

/-- The shared objects and the place of every drinker thread. -/
structure Machine where
  world : World
  pcs : List Pc
  deriving DecidableEq

/-- Thread `tid` moves to `pc`, leaving drinker `d` and pool `pool` behind. -/
def Machine.update (m : Machine) (tid : Nat) (d : Drinker) (pool : ResourcePool) (pc : Pc) :
    Machine :=
  { world := m.world.update tid d pool, pcs := m.pcs.set tid pc }

/-- One step of thread `tid`.  `rnd` is the value of `myRand()` if the step calls it and
`tryLockOk` says whether a `try_lock` on a free mutex goes through if the step calls it.
The sleeps of `Drink` change nothing and are left out. -/
def Machine.step (m : Machine) (tid rnd : Nat) (tryLockOk : Bool) : Outcome Machine :=
  match m.pcs[tid]?, m.world.poolOfDrinkers.drinkers[tid]? with
  | some pc, some d =>
    match pc with
    | .tryToDrink =>
      if m.world.poolOfResources.totalResources = 0 then .undefined
      else .returned (m.update tid d m.world.poolOfResources
        (.lockFirst (Int.tmod (rnd : Int) m.world.poolOfResources.totalResources).toNat))
    | .lockFirst trying =>
      match lockFirst tid d m.world.poolOfResources trying with
      | .undefined => .undefined
      | .blocked => .blocked
      | .returned (drinker1, pool1) => .returned (m.update tid drinker1 pool1 (.scan trying 0))
    | .scan trying i =>
      if (i : Int) < m.world.poolOfResources.totalResources then
        match tryLockSecond tid trying tryLockOk i d m.world.poolOfResources with
        | .undefined => .undefined
        | .blocked => .blocked
        | .returned (some (drinker2, pool2)) => .returned (m.update tid drinker2 pool2 .drink)
        | .returned none =>
          .returned (m.update tid d m.world.poolOfResources (.scan trying (i + 1)))
      else
        match unlockResource tid m.world.poolOfResources (some trying) with
        | none => .undefined
        | some pool' => .returned (m.update tid d pool' .checkStop)
    | .drink =>
      match useResource m.world.poolOfResources d.bottle with
      | none => .undefined
      | some pool1 =>
        match useResource pool1 d.opener with
        | none => .undefined
        | some pool2 =>
          match unlockResource tid pool2 d.bottle with
          | none => .undefined
          | some pool3 => .returned (m.update tid d pool3 .unlockOpener)
    | .unlockOpener =>
      match unlockResource tid m.world.poolOfResources d.opener with
      | none => .undefined
      | some pool4 =>
        match increment d.drinkCount with
        | none => .undefined
        | some drinkCount =>
          .returned (m.update tid
            { d with bottle := none, opener := none, drinkCount := drinkCount } pool4
            .checkStop)
    | .checkStop =>
      if m.world.poolOfDrinkers.stopDrinkingFlag = true then
        .returned (m.update tid d m.world.poolOfResources .stopped)
      else
        .returned (m.update tid d m.world.poolOfResources .tryToDrink)
    | .stopped => .returned m
  | _, _ => .undefined

/-- Source lines 91-95, run by the driver. -/
def SetStopDrinkingFlag (poolOfDrinkers : DrinkerPool) : DrinkerPool :=
  { poolOfDrinkers with stopDrinkingFlag := true }

/-- What happens next: a thread takes a step, or the driver sets the stop flag. -/
inductive Event where
  | thread (tid rnd : Nat) (tryLockOk : Bool)
  | stop
  deriving DecidableEq

/-- The state after one event. -/
def Machine.fire (m : Machine) : Event → Outcome Machine
  | .thread tid rnd tryLockOk => m.step tid rnd tryLockOk
  | .stop =>
    .returned { m with world :=
      { m.world with poolOfDrinkers := SetStopDrinkingFlag m.world.poolOfDrinkers } }

/-- The state after a sequence of events, in any interleaving of the threads. -/
def Machine.exec (m : Machine) : List Event → Outcome Machine
  | [] => .returned m
  | e :: rest =>
    match m.fire e with
    | .undefined => .undefined
    | .blocked => .blocked
    | .returned m' => m'.exec rest

/-- The state in which the threads enter `StartDrinker`: the pool and the drinkers as `main`
built them, every thread before its first `TryToDrink`. -/
def Machine.initial (m : Machine) : Prop :=
  m.world.initial ∧ m.pcs = List.replicate m.world.poolOfDrinkers.drinkers.length Pc.tryToDrink

instance (m : Machine) : Decidable m.initial :=
  inferInstanceAs (Decidable (_ ∧ _))

/-- The resources whose mutex a thread at `pc` with drinker `d` may own. -/
def Pc.holds : Pc → Drinker → Nat → Prop
  | .scan trying _, _, i => i = trying
  | .drink, d, i => d.bottle = some i ∨ d.opener = some i
  | .unlockOpener, d, i => d.opener = some i
  | _, _, _ => False

/-- The mutexes thread `tid` at `pc` does own, and the slot its first resource is bound to. -/
def Pc.owns : Pc → Nat → Drinker → ResourcePool → Prop
  | .scan trying _, tid, d, pool =>
    ownerAt pool trying = some tid ∧
    ∃ type, typeAt pool trying = some type ∧
      (if type = ResourceType.Bottle then d.bottle = some trying else d.opener = some trying)
  | .drink, tid, d, pool =>
    ∃ b o, d.bottle = some b ∧ d.opener = some o ∧ b ≠ o ∧
      ownerAt pool b = some tid ∧ ownerAt pool o = some tid
  | .unlockOpener, tid, d, pool => ∃ o, d.opener = some o ∧ ownerAt pool o = some tid
  | _, _, _, _ => True

/-- What holds in every state the threads can reach: only bottles and openers, every owned
mutex is one its owner may own where it stands, and every thread owns what it should. -/
def Machine.safe (m : Machine) : Prop :=
  (∀ j type, typeAt m.world.poolOfResources j = some type →
    type = ResourceType.Bottle ∨ type = ResourceType.Opener) ∧
  (∀ i h, ownerAt m.world.poolOfResources i = some h →
    ∃ (pc : Pc) (d : Drinker), m.pcs[h]? = some pc ∧
      m.world.poolOfDrinkers.drinkers[h]? = some d ∧ pc.holds d i) ∧
  (∀ (h : Nat) (pc : Pc) (d : Drinker), m.pcs[h]? = some pc →
    m.world.poolOfDrinkers.drinkers[h]? = some d → pc.owns h d m.world.poolOfResources) ∧
  m.pcs.length = m.world.poolOfDrinkers.drinkers.length

/-- An upper bound on the steps a thread at `pc` takes before it owns no mutex, in a pool
of `total` resources. -/
def Pc.bound (total : Int) : Pc → Nat
  | .scan _ i => (total.toNat - i) + 3
  | .drink => 2
  | .unlockOpener => 1
  | _ => 0

/-- An upper bound on the steps thread `tid` takes before it owns no mutex. -/
def Machine.remaining (m : Machine) (tid : Nat) : Nat :=
  match m.pcs[tid]? with
  | some pc => pc.bound m.world.poolOfResources.totalResources
  | none => 0

/-! ### Small runs, used to check the theorems on the code -/

/-- The pool of `DrinkingGame n 1 1`. -/
def bottleAndOpener : ResourcePool :=
  { totalResources := 2,
    resources := [Resource.new 0 ResourceType.Bottle, Resource.new 1 ResourceType.Opener] }

/-- The pool of `DrinkingGame n 2 0`. -/
def twoBottles : ResourcePool :=
  { totalResources := 2,
    resources := [Resource.new 0 ResourceType.Bottle, Resource.new 1 ResourceType.Bottle] }

/-- The pool of `DrinkingGame n 1 0`. -/
def oneBottle : ResourcePool :=
  { totalResources := 1, resources := [Resource.new 0 ResourceType.Bottle] }

/-- The drinkers of `DrinkingGame 2 b o` once both threads are in `StartDrinker`. -/
def twoDrinkers : DrinkerPool :=
  { totalDrinkers := 2, drinkerCount := 2, startingGunFlag := true, stopDrinkingFlag := false,
    drinkers := [Drinker.new 0, Drinker.new 1] }

/-- The drinker pool of `DrinkingGame 1 b o` before its only thread has counted itself in. -/
def oneDrinkerNotReady : DrinkerPool :=
  { totalDrinkers := 1, drinkerCount := 0, startingGunFlag := false, stopDrinkingFlag := false,
    drinkers := [Drinker.new 0] }

/-- The shared objects of `DrinkingGame 2 1 1` as the threads enter `StartDrinker`. -/
def twoOnBottleAndOpener : World :=
  { poolOfDrinkers := twoDrinkers, poolOfResources := bottleAndOpener }

/-- The shared objects of `DrinkingGame 2 2 0` as the threads enter `StartDrinker`. -/
def twoOnTwoBottles : World :=
  { poolOfDrinkers := twoDrinkers, poolOfResources := twoBottles }

/-- Thread 0 drinks, thread 1 fails against a `try_lock` that does not go through, thread 1
takes both resources and drinks after that. -/
def threeCalls : List Call :=
  [Call.tryToDrink 0 0 (fun _ => true) 7 8 9,
   Call.tryToDrink 1 1 (fun _ => false) 0 0 0,
   Call.tryToGetResources 1 1 (fun _ => true),
   Call.drink 1 3 4 5]

/-- The state after `threeCalls`. -/
def afterThreeCalls : World :=
  { poolOfDrinkers := { twoDrinkers with
      drinkers := [{ Drinker.new 0 with drinkCount := 1 },
                   { Drinker.new 1 with drinkCount := 1 }] },
    poolOfResources :=
      { totalResources := 2,
        resources := [{ Resource.new 0 ResourceType.Bottle with useCount := 2, lockCount := 2 },
                      { Resource.new 1 ResourceType.Opener with useCount := 2, lockCount := 3 }] } }

/-- Three calls of `TryToDrink` of thread 0 that all succeed. -/
def threeDrinks : List Call :=
  [Call.tryToDrink 0 0 (fun _ => true) 0 0 0,
   Call.tryToDrink 0 1 (fun _ => true) 0 0 0,
   Call.tryToDrink 0 2 (fun _ => true) 0 0 0]

/-- Two calls of `TryToDrink` on the pool of two bottles. -/
def twoDryCalls : List Call :=
  [Call.tryToDrink 0 0 (fun _ => true) 0 0 0, Call.tryToDrink 1 3 (fun _ => true) 0 0 0]

/-- The state after `twoDryCalls`. -/
def afterTwoDryCalls : World :=
  { poolOfDrinkers := { twoDrinkers with
      drinkers := [{ Drinker.new 0 with bottle := some 0 },
                   { Drinker.new 1 with bottle := some 1 }] },
    poolOfResources :=
      { totalResources := 2,
        resources := [{ Resource.new 0 ResourceType.Bottle with lockCount := 1 },
                      { Resource.new 1 ResourceType.Bottle with lockCount := 1 }] } }

/-- The drinker after a successful `TryToGetResources` on `bottleAndOpener`. -/
def drinkerWithBoth : Drinker :=
  { Drinker.new 0 with bottle := some 0, opener := some 1 }

/-- The pool `bottleAndOpener` with both mutexes owned by thread 0. -/
def bottleAndOpenerLocked : ResourcePool :=
  { totalResources := 2,
    resources := [{ Resource.new 0 ResourceType.Bottle with lockCount := 1,
                                                             resourceMutex := some 0 },
                  { Resource.new 1 ResourceType.Opener with lockCount := 1,
                                                             resourceMutex := some 0 }] }

/-- The pool `bottleAndOpener` after one drink. -/
def bottleAndOpenerUsed : ResourcePool :=
  { totalResources := 2,
    resources := [{ Resource.new 0 ResourceType.Bottle with useCount := 1, lockCount := 1 },
                  { Resource.new 1 ResourceType.Opener with useCount := 1, lockCount := 1 }] }

/-- The threads of `DrinkingGame 2 1 1` as they enter `StartDrinker`. -/
def twoThreads : Machine :=
  { world := twoOnBottleAndOpener, pcs := [Pc.tryToDrink, Pc.tryToDrink] }

/-- Thread 0 picks the bottle and locks it, thread 1 picks the bottle too. -/
def contention : List Event :=
  [Event.thread 0 0 true, Event.thread 0 0 true, Event.thread 1 0 true]

/-- The state after `contention`: thread 0 scans with the bottle locked, thread 1 is in
`lock()` on the bottle. -/
def afterContention : Machine :=
  { world :=
      { poolOfDrinkers := { twoDrinkers with
          drinkers := [{ Drinker.new 0 with bottle := some 0 }, Drinker.new 1] },
        poolOfResources :=
          { totalResources := 2,
            resources := [{ Resource.new 0 ResourceType.Bottle with lockCount := 1,
                                                                     resourceMutex := some 0 },
                          Resource.new 1 ResourceType.Opener] } },
    pcs := [Pc.scan 0 0, Pc.lockFirst 0] }

/-! ## Basic facts about the primitives -/

theorem increment_eq_some {x y : Int} : increment x = some y ↔ x < INT_MAX ∧ y = x + 1 := by
  unfold increment
  split
  · simp_all [eq_comm]
  · simp_all

theorem store_totalResources (pool : ResourcePool) (i : Nat) (r : Resource) :
    (pool.store i r).totalResources = pool.totalResources := rfl

theorem store_length (pool : ResourcePool) (i : Nat) (r : Resource) :
    (pool.store i r).resources.length = pool.resources.length := by
  simp [ResourcePool.store]

theorem store_get_self {pool : ResourcePool} {i : Nat} {q : Resource} (r : Resource)
    (h : pool.resources[i]? = some q) : (pool.store i r).resources[i]? = some r := by
  have hlt : i < pool.resources.length := by
    rcases List.getElem?_eq_some.mp h with ⟨hlt, _⟩
    exact hlt
  simp [ResourcePool.store, List.getElem?_set, hlt]

theorem store_get_ne (pool : ResourcePool) {i j : Nat} (r : Resource) (h : i ≠ j) :
    (pool.store i r).resources[j]? = pool.resources[j]? := by
  simp [ResourcePool.store, List.getElem?_set, h]

theorem store_store (pool : ResourcePool) (i : Nat) (r r' : Resource) :
    (pool.store i r).store i r' = pool.store i r' := by
  simp [ResourcePool.store, List.set_set]

theorem useResource_eq_some {pool pool' : ResourcePool} {p : Option Nat}
    (h : useResource pool p = some pool') :
    ∃ i r, p = some i ∧ pool.resources[i]? = some r ∧ r.useCount < INT_MAX ∧
      pool' = pool.store i { r with useCount := r.useCount + 1 } := by
  unfold useResource at h
  split at h
  · cases h
  · rename_i i
    split at h
    · cases h
    · rename_i r hr
      split at h
      · cases h
      · rename_i u hu
        rcases increment_eq_some.mp hu with ⟨hlt, rfl⟩
        cases h
        exact ⟨i, r, rfl, hr, hlt, rfl⟩

theorem unlockResource_eq_some {tid : Nat} {pool pool' : ResourcePool} {p : Option Nat}
    (h : unlockResource tid pool p = some pool') :
    ∃ i r, p = some i ∧ pool.resources[i]? = some r ∧ r.resourceMutex = some tid ∧
      pool' = pool.store i { r with resourceMutex := none } := by
  unfold unlockResource at h
  split at h
  · cases h
  · rename_i i
    split at h
    · cases h
    · rename_i r hr
      split at h
      · rename_i hm
        cases h
        exact ⟨i, r, rfl, hr, hm, rfl⟩
      · cases h

/-- What `lockFirst` did when it returned. -/
theorem lockFirst_returned {tid trying : Nat} {d d1 : Drinker} {pool pool1 : ResourcePool}
    (h : lockFirst tid d pool trying = .returned (d1, pool1)) :
    ∃ f, pool.resources[trying]? = some f ∧ f.resourceMutex = none ∧
      f.lockCount < INT_MAX ∧ d1 = bindFirst d f.type trying ∧
      pool1 = pool.store trying
        { f with resourceMutex := some tid, lockCount := f.lockCount + 1 } := by
  unfold lockFirst at h
  split at h
  · cases h
  · rename_i f hf
    split at h
    · split at h <;> cases h
    · rename_i hm
      split at h
      · cases h
      · rename_i lc hlc
        rcases increment_eq_some.mp hlc with ⟨hlt, rfl⟩
        cases h
        exact ⟨f, hf, hm, hlt, rfl, rfl⟩

/-- What one pass through the loop body did when it got to its end. -/
theorem tryLockSecond_returned {tid trying : Nat} {ok : Bool} {i : Nat} {d : Drinker}
    {pool : ResourcePool} {res : Option (Drinker × ResourcePool)}
    (h : tryLockSecond tid trying ok i d pool = .returned res) :
    res = none ∨ ∃ f s, i ≠ trying ∧ pool.resources[trying]? = some f ∧
      pool.resources[i]? = some s ∧ s.type ≠ f.type ∧ s.resourceMutex = none ∧ ok = true ∧
      s.lockCount < INT_MAX ∧
      res = some
        (if s.type = ResourceType.Bottle then { d with bottle := some i }
          else { d with opener := some i },
         pool.store i { s with resourceMutex := some tid, lockCount := s.lockCount + 1 }) := by
  unfold tryLockSecond at h
  split at h
  · rename_i f s hf hs
    split at h
    · rename_i hcond
      split at h
      · rename_i hfree
        split at h
        · cases h
        · rename_i lc hlc
          rcases increment_eq_some.mp hlc with ⟨hlt, rfl⟩
          refine Or.inr ⟨f, s, hcond.1, hf, hs, hcond.2, hfree.1, hfree.2, hlt, ?_⟩
          split at h
          · rename_i hB
            cases h
            simp [hB]
          · rename_i hB
            cases h
            simp [hB]
      · cases h
        exact Or.inl rfl
    · cases h
      exact Or.inl rfl
  · cases h

/-- What `secondScan` did when it returned. -/
theorem secondScan_returned {tid trying : Nat}
    {tryLockOk : Nat → Bool} {rest : List Nat} {d d' : Drinker} {pool pool' : ResourcePool}
    {b : Bool}
    (h : secondScan tid trying tryLockOk rest d pool = .returned (b, d', pool')) :
    (b = false ∧ d' = d ∧ ∃ f, pool.resources[trying]? = some f ∧
        f.resourceMutex = some tid ∧
        pool' = pool.store trying { f with resourceMutex := none }) ∨
    (b = true ∧ ∃ i s f, i ∈ rest ∧ i ≠ trying ∧ pool.resources[trying]? = some f ∧
        pool.resources[i]? = some s ∧
        s.type ≠ f.type ∧ s.resourceMutex = none ∧ tryLockOk i = true ∧
        s.lockCount < INT_MAX ∧
        pool' = pool.store i
          { s with resourceMutex := some tid, lockCount := s.lockCount + 1 } ∧
        d' = if s.type = ResourceType.Bottle then { d with bottle := some i }
             else { d with opener := some i }) := by
  induction rest with
  | nil =>
    unfold secondScan at h
    split at h
    · cases h
    · rename_i p hp
      cases h
      obtain ⟨i, f, hi, hf, hm, hpool⟩ := unlockResource_eq_some hp
      cases hi
      exact Or.inl ⟨rfl, rfl, f, hf, hm, hpool⟩
  | cons i rest ih =>
    unfold secondScan at h
    split at h
    · cases h
    · cases h
    · rename_i d2 p2 hstep
      cases h
      rcases tryLockSecond_returned hstep with hnone | ⟨f, s, hne, hf, hs, hty, hfree, hok, hlt, hres⟩
      · cases hnone
      · simp only [Option.some.injEq, Prod.mk.injEq] at hres
        exact Or.inr ⟨rfl, i, s, f, List.mem_cons_self _ _, hne, hf, hs, hty, hfree, hok, hlt,
          hres.2, hres.1⟩
    · rcases ih h with h1 | ⟨hb, j, s', f', hj, rest'⟩
      · exact Or.inl h1
      · exact Or.inr ⟨hb, j, s', f', List.mem_cons_of_mem _ hj, rest'⟩

/-- What `TryToGetResources` did when it returned. -/
theorem TryToGetResources_returned {tid : Nat} {d d' : Drinker} {pool pool' : ResourcePool}
    {rnd : Nat} {tryLockOk : Nat → Bool} {b : Bool}
    (h : TryToGetResources tid d pool rnd tryLockOk = .returned (b, d', pool')) :
    pool.totalResources ≠ 0 ∧
    ∃ f, pool.resources[(Int.tmod (rnd : Int) pool.totalResources).toNat]? = some f ∧
      f.resourceMutex = none ∧ f.lockCount < INT_MAX ∧
      ((b = false ∧ d' = bindFirst d f.type (Int.tmod (rnd : Int) pool.totalResources).toNat ∧
          pool' = pool.store (Int.tmod (rnd : Int) pool.totalResources).toNat
            { f with lockCount := f.lockCount + 1 }) ∨
       (b = true ∧ ∃ i s, i < pool.totalResources.toNat ∧
          i ≠ (Int.tmod (rnd : Int) pool.totalResources).toNat ∧
          pool.resources[i]? = some s ∧ s.type ≠ f.type ∧ s.resourceMutex = none ∧
          tryLockOk i = true ∧ s.lockCount < INT_MAX ∧
          pool' = (pool.store (Int.tmod (rnd : Int) pool.totalResources).toNat
              { f with resourceMutex := some tid, lockCount := f.lockCount + 1 }).store i
              { s with resourceMutex := some tid, lockCount := s.lockCount + 1 } ∧
          d' = if s.type = ResourceType.Bottle then
                { bindFirst d f.type (Int.tmod (rnd : Int) pool.totalResources).toNat with
                  bottle := some i }
               else
                { bindFirst d f.type (Int.tmod (rnd : Int) pool.totalResources).toNat with
                  opener := some i })) := by
  unfold TryToGetResources at h
  simp only at h
  split at h
  · cases h
  · rename_i htot
    refine ⟨htot, ?_⟩
    split at h
    · cases h
    · cases h
    · rename_i d1 pool1 hlock
      obtain ⟨f, hf, hm, hlt, rfl, rfl⟩ := lockFirst_returned hlock
      refine ⟨f, hf, hm, hlt, ?_⟩
      rcases secondScan_returned h with ⟨hb, hd, f1, hf1, _, hp⟩ |
        ⟨hb, i, s, f1, hi, hne, hf1, hs, hty, hfree, hok, hlt2, hp, hd⟩
      · refine Or.inl ⟨hb, hd, ?_⟩
        rw [store_get_self _ hf] at hf1
        cases hf1
        rw [hp, store_store, hm]
      · rw [store_get_self _ hf] at hf1
        cases hf1
        refine Or.inr ⟨hb, i, s, ?_, hne, ?_, hty, hfree, hok, hlt2, hp, hd⟩
        · simpa using hi
        · rw [store_get_ne _ _ (Ne.symm hne)] at hs
          exact hs

theorem store_comm (pool : ResourcePool) {i j : Nat} (r r' : Resource) (h : i ≠ j) :
    (pool.store i r).store j r' = (pool.store j r').store i r := by
  simp [ResourcePool.store, List.set_comm r r' _ h]

/-- What `Drink` did when it returned. -/
theorem Drink_returned {tid : Nat} {d d' : Drinker} {pool pool' : ResourcePool}
    {r1 r2 r3 : Nat} {sleeps : List Sleep}
    (h : Drink tid d pool r1 r2 r3 = .returned (d', pool', sleeps)) :
    ∃ b o rb ro, d.bottle = some b ∧ d.opener = some o ∧ b ≠ o ∧
      pool.resources[b]? = some rb ∧ pool.resources[o]? = some ro ∧
      rb.resourceMutex = some tid ∧ ro.resourceMutex = some tid ∧
      rb.useCount < INT_MAX ∧ ro.useCount < INT_MAX ∧ d.drinkCount < INT_MAX ∧
      pool' = (pool.store b { rb with useCount := rb.useCount + 1, resourceMutex := none }).store
                o { ro with useCount := ro.useCount + 1, resourceMutex := none } ∧
      d' = { d with bottle := none, opener := none, drinkCount := d.drinkCount + 1 } ∧
      sleeps = Sleep.drinkTime (20 + Int.tmod (r1 : Int) 20) ::
        extraPause (d.drinkCount + 1) (40 + Int.tmod (r2 : Int) 10)
          (60 + Int.tmod (r3 : Int) 10) := by
  unfold Drink at h
  simp only at h
  split at h
  · cases h
  · rename_i p1 h1
    split at h
    · cases h
    · rename_i p2 h2
      split at h
      · cases h
      · rename_i p3 h3
        split at h
        · cases h
        · rename_i p4 h4
          split at h
          · cases h
          · rename_i dc hdc
            rcases increment_eq_some.mp hdc with ⟨hdlt, rfl⟩
            cases h
            rcases useResource_eq_some h1 with ⟨b, rb, hb, hrb, hblt, rfl⟩
            rcases useResource_eq_some h2 with ⟨o, ro1, ho, hro1, holt, rfl⟩
            rcases unlockResource_eq_some h3 with ⟨b', rb3, hb', hrb3, hmb, rfl⟩
            rcases unlockResource_eq_some h4 with ⟨o', ro4, ho', hro4, hmo, rfl⟩
            rw [hb] at hb'
            cases hb'
            rw [ho] at ho'
            cases ho'
            have hne : b ≠ o := by
              intro hbo
              subst hbo
              rw [store_get_self _ hrb3] at hro4
              cases hro4
              simp at hmo
            have hro : pool.resources[o]? = some ro1 := by
              rw [store_get_ne _ _ hne] at hro1
              exact hro1
            rw [store_get_ne _ _ (Ne.symm hne), store_get_self _ hrb] at hrb3
            cases hrb3
            rw [store_get_ne _ _ hne, store_get_self _ hro1] at hro4
            cases hro4
            refine ⟨b, o, rb, ro1, hb, ho, hne, hrb, hro, hmb, hmo, hblt, holt, hdlt, ?_, rfl, rfl⟩
            rw [store_comm _ _ _ (Ne.symm hne), store_store, store_store]

/-- The index `myRand() % totalResources` of a pool with at least one resource. -/
theorem trying_eq {total : Int} (rnd : Nat) (h : 1 ≤ total) :
    (((Int.tmod (rnd : Int) total).toNat : Nat) : Int) = (rnd : Int) % total ∧
    (rnd : Int) % total < total := by
  have h0 : (0 : Int) ≤ (rnd : Int) := Int.ofNat_nonneg rnd
  have hpos : (0 : Int) < total := by omega
  rw [Int.tmod_eq_emod h0 (le_of_lt hpos)]
  have hnn : 0 ≤ (rnd : Int) % total := Int.emod_nonneg _ (ne_of_gt hpos)
  exact ⟨Int.toNat_of_nonneg hnn, Int.emod_lt_of_pos _ hpos⟩

/-- C1: on a pool of bottles and openers with `totalResources >= 1`, when
`TryToGetResources` returns true the bottle slot points to a pool entry of type Bottle and
the opener slot to a pool entry of type Opener, the two entries differ, one of them is
`resources[rnd % totalResources]`, both mutexes were free before the call and both are
owned by the calling thread after it. -/
theorem TryToGetResources_true_binds_bottle_and_opener
    (tid : Nat) (d d' : Drinker) (pool pool' : ResourcePool) (rnd : Nat)
    (tryLockOk : Nat → Bool)
    (htype : ∀ r ∈ pool.resources, r.type = ResourceType.Bottle ∨ r.type = ResourceType.Opener)
    (htotal : 1 ≤ pool.totalResources)
    (h : TryToGetResources tid d pool rnd tryLockOk = .returned (true, d', pool')) :
    ∃ b o rb ro rb0 ro0, d'.bottle = some b ∧ d'.opener = some o ∧ b ≠ o ∧
      (b : Int) < pool.totalResources ∧ (o : Int) < pool.totalResources ∧
      pool'.resources[b]? = some rb ∧ rb.type = ResourceType.Bottle ∧
      pool'.resources[o]? = some ro ∧ ro.type = ResourceType.Opener ∧
      ((b : Int) = (rnd : Int) % pool.totalResources ∨
        (o : Int) = (rnd : Int) % pool.totalResources) ∧
      pool.resources[b]? = some rb0 ∧ rb0.resourceMutex = none ∧
      pool.resources[o]? = some ro0 ∧ ro0.resourceMutex = none ∧
      rb.resourceMutex = some tid ∧ ro.resourceMutex = some tid := by
  obtain ⟨_, f, hf, hfm, _, hcase⟩ := TryToGetResources_returned h
  rcases hcase with ⟨hb, _⟩ | ⟨_, i, s, hi, hne, hs, hty, hsm, _, _, hp, hd⟩
  · cases hb
  · obtain ⟨htry, htrylt⟩ := trying_eq rnd htotal
    have hilt : (i : Int) < pool.totalResources := by omega
    have hpi : pool'.resources[i]? = some
        { s with resourceMutex := some tid, lockCount := s.lockCount + 1 } := by
      have hs1 := hs
      rw [← store_get_ne pool _ (Ne.symm hne)] at hs1
      rw [hp]
      exact store_get_self _ hs1
    have hpt : pool'.resources[(Int.tmod (rnd : Int) pool.totalResources).toNat]? = some
        { f with resourceMutex := some tid, lockCount := f.lockCount + 1 } := by
      rw [hp, store_get_ne _ _ hne]
      exact store_get_self _ hf
    rcases htype f (List.getElem?_mem hf) with hfB | hfO
    · have hsO : s.type = ResourceType.Opener := by
        rcases htype s (List.getElem?_mem hs) with hsB | hsO
        · exact absurd (hsB.trans hfB.symm) hty
        · exact hsO
      refine ⟨_, i, _, _, f, s, ?_, ?_, Ne.symm hne, ?_, hilt, hpt, hfB, hpi, hsO,
        Or.inl htry, hf, hfm, hs, hsm, rfl, rfl⟩
      · rw [hd]; simp [hsO, bindFirst, hfB]
      · rw [hd]; simp [hsO]
      · rw [htry]; exact htrylt
    · have hsB : s.type = ResourceType.Bottle := by
        rcases htype s (List.getElem?_mem hs) with hsB | hsO
        · exact hsB
        · exact absurd (hsO.trans hfO.symm) hty
      refine ⟨i, _, _, _, s, f, ?_, ?_, hne, hilt, ?_, hpi, hsB, hpt, hfO,
        Or.inr htry, hs, hsm, hf, hfm, rfl, rfl⟩
      · rw [hd]; simp [hsB]
      · rw [hd]; simp [hsB, bindFirst, hfO]
      · rw [htry]; exact htrylt

/-! ## Who owns which mutex -/

theorem ownerAt_of_get {pool : ResourcePool} {i : Nat} {r : Resource}
    (h : pool.resources[i]? = some r) : ownerAt pool i = r.resourceMutex := by
  simp [ownerAt, h]

theorem ownerAt_store_ne (pool : ResourcePool) {i j : Nat} (r : Resource) (h : i ≠ j) :
    ownerAt (pool.store i r) j = ownerAt pool j := by
  simp [ownerAt, store_get_ne pool r h]

theorem ownerAt_store_self {pool : ResourcePool} {i : Nat} {q : Resource} (r : Resource)
    (h : pool.resources[i]? = some q) : ownerAt (pool.store i r) i = r.resourceMutex :=
  ownerAt_of_get (store_get_self r h)

theorem holdsNoLock_iff {tid : Nat} {pool : ResourcePool} :
    holdsNoLock tid pool ↔ ∀ i, ownerAt pool i ≠ some tid := by
  constructor
  · intro h i
    unfold ownerAt
    split
    · simp
    · rename_i r hr
      exact h r (List.getElem?_mem hr)
  · intro h r hr
    obtain ⟨i, hi⟩ := List.mem_iff_getElem?.mp hr
    have := h i
    rwa [ownerAt_of_get hi] at this

/-- The mutexes after `TryToGetResources`: untouched when it fails, and two more owned by
the caller when it succeeds. -/
theorem TryToGetResources_owner {tid : Nat} {d d' : Drinker} {pool pool' : ResourcePool}
    {rnd : Nat} {tryLockOk : Nat → Bool} {b : Bool}
    (h : TryToGetResources tid d pool rnd tryLockOk = .returned (b, d', pool')) :
    (b = false ∧ ∀ j, ownerAt pool' j = ownerAt pool j) ∨
    (b = true ∧ ∃ t i, t ≠ i ∧ ownerAt pool t = none ∧ ownerAt pool i = none ∧
      ownerAt pool' t = some tid ∧ ownerAt pool' i = some tid ∧
      ∀ j, j ≠ t → j ≠ i → ownerAt pool' j = ownerAt pool j) := by
  obtain ⟨_, f, hf, hfm, _, hcase⟩ := TryToGetResources_returned h
  rcases hcase with ⟨hb, _, hp⟩ | ⟨hb, i, s, _, hne, hs, _, hsm, _, _, hp, _⟩
  · refine Or.inl ⟨hb, fun j => ?_⟩
    rw [hp]
    by_cases hj : (Int.tmod (rnd : Int) pool.totalResources).toNat = j
    · subst hj
      rw [ownerAt_of_get (store_get_self _ hf), ownerAt_of_get hf]
    · exact ownerAt_store_ne _ _ hj
  · refine Or.inr ⟨hb, _, i, Ne.symm hne, ?_, ?_, ?_, ?_, fun j hjt hji => ?_⟩
    · rw [ownerAt_of_get hf, hfm]
    · rw [ownerAt_of_get hs, hsm]
    · rw [hp, ownerAt_store_ne _ _ hne, ownerAt_of_get (store_get_self _ hf)]
    · have hs1 := hs
      rw [← store_get_ne pool _ (Ne.symm hne)] at hs1
      rw [hp, ownerAt_store_self _ hs1]
    · rw [hp, ownerAt_store_ne _ _ (Ne.symm hji), ownerAt_store_ne _ _ (Ne.symm hjt)]

/-- The mutexes after `Drink`: the two slots were owned by the caller and are free. -/
theorem Drink_owner {tid : Nat} {d d' : Drinker} {pool pool' : ResourcePool}
    {r1 r2 r3 : Nat} {sleeps : List Sleep}
    (h : Drink tid d pool r1 r2 r3 = .returned (d', pool', sleeps)) :
    ∃ b o, b ≠ o ∧ d.bottle = some b ∧ d.opener = some o ∧
      ownerAt pool b = some tid ∧ ownerAt pool o = some tid ∧
      ownerAt pool' b = none ∧ ownerAt pool' o = none ∧
      ∀ j, j ≠ b → j ≠ o → ownerAt pool' j = ownerAt pool j := by
  obtain ⟨b, o, rb, ro, hb, ho, hne, hrb, hro, hmb, hmo, _, _, _, hp, _, _⟩ := Drink_returned h
  refine ⟨b, o, hne, hb, ho, ?_, ?_, ?_, ?_, fun j hjb hjo => ?_⟩
  · rw [ownerAt_of_get hrb, hmb]
  · rw [ownerAt_of_get hro, hmo]
  · rw [hp, ownerAt_store_ne _ _ (Ne.symm hne), ownerAt_of_get (store_get_self _ hrb)]
  · have hro1 := hro
    rw [← store_get_ne pool _ hne] at hro1
    rw [hp, ownerAt_store_self _ hro1]
  · rw [hp, ownerAt_store_ne _ _ (Ne.symm hjo), ownerAt_store_ne _ _ (Ne.symm hjb)]

/-- What `TryToDrink` did when it returned. -/
theorem TryToDrink_returned {tid : Nat} {d d' : Drinker} {pool pool' : ResourcePool}
    {rnd : Nat} {tryLockOk : Nat → Bool} {r1 r2 r3 : Nat} {b : Bool} {sleeps : List Sleep}
    (h : TryToDrink tid d pool rnd tryLockOk r1 r2 r3 = .returned (b, d', pool', sleeps)) :
    (b = false ∧ sleeps = [] ∧
      TryToGetResources tid d pool rnd tryLockOk = .returned (false, d', pool')) ∨
    (b = true ∧ ∃ d1 pool1,
      TryToGetResources tid d pool rnd tryLockOk = .returned (true, d1, pool1) ∧
      Drink tid d1 pool1 r1 r2 r3 = .returned (d', pool', sleeps)) := by
  unfold TryToDrink at h
  split at h
  · cases h
  · cases h
  · rename_i d1 pool1 hget
    split at h
    · cases h
    · cases h
    · rename_i d2 pool2 sl hdrink
      cases h
      exact Or.inr ⟨rfl, d1, pool1, hget, hdrink⟩
  · rename_i d1 pool1 hget
    cases h
    exact Or.inl ⟨rfl, rfl, hget⟩

/-! ## When the calls return -/

theorem increment_of_lt {x : Int} (h : x < INT_MAX) : increment x = some (x + 1) := by
  simp [increment, h]

theorem lockFirst_defined (tid : Nat) (d : Drinker) {pool : ResourcePool} {trying : Nat}
    {f : Resource} (hf : pool.resources[trying]? = some f) (hm : f.resourceMutex = none)
    (hlt : f.lockCount < INT_MAX) :
    lockFirst tid d pool trying = .returned (bindFirst d f.type trying,
      pool.store trying { f with resourceMutex := some tid, lockCount := f.lockCount + 1 }) := by
  unfold lockFirst
  simp only [hf, hm, increment_of_lt hlt]

theorem tryLockSecond_defined (tid : Nat) (ok : Bool) (d : Drinker) {pool : ResourcePool}
    {trying i : Nat} {f s : Resource} (hf : pool.resources[trying]? = some f)
    (hs : pool.resources[i]? = some s) (hlt : i ≠ trying → s.lockCount < INT_MAX) :
    ∃ res, tryLockSecond tid trying ok i d pool = .returned res := by
  unfold tryLockSecond
  simp only [hf, hs]
  split
  · rename_i hcond
    split
    · rw [increment_of_lt (hlt hcond.1)]
      simp only
      split <;> exact ⟨_, rfl⟩
    · exact ⟨_, rfl⟩
  · exact ⟨_, rfl⟩

/-- The scan returns when every index it visits is inside the vector, no `lockCount` it may
increment is at `INT_MAX`, and the caller owns the first resource. -/
theorem secondScan_defined (tid trying : Nat)
    (tryLockOk : Nat → Bool) (d : Drinker) (pool : ResourcePool) {f : Resource}
    (hf : pool.resources[trying]? = some f) (hfm : f.resourceMutex = some tid)
    (rest : List Nat) (hin : ∀ i ∈ rest, i < pool.resources.length)
    (hlc : ∀ i r, i ≠ trying → pool.resources[i]? = some r → r.lockCount < INT_MAX) :
    ∃ res, secondScan tid trying tryLockOk rest d pool = .returned res := by
  induction rest with
  | nil =>
    unfold secondScan
    simp [unlockResource, hf, hfm]
  | cons i rest ih =>
    have hi : i < pool.resources.length := hin i (List.mem_cons_self _ _)
    have hrest := ih (fun j hj => hin j (List.mem_cons_of_mem _ hj))
    obtain ⟨s, hs⟩ : ∃ s, pool.resources[i]? = some s :=
      ⟨pool.resources[i], List.getElem?_eq_getElem hi⟩
    obtain ⟨res, hres⟩ := tryLockSecond_defined tid (tryLockOk i) d hf hs
      (fun hne => hlc i s hne hs)
    unfold secondScan
    rw [hres]
    cases res with
    | none => exact hrest
    | some x => exact ⟨_, rfl⟩

/-- The call `TryToGetResources` returns when `1 <= totalResources <= size`, the mutex
of the first pick is free and no `lockCount` is at `INT_MAX`. -/
theorem TryToGetResources_defined (tid : Nat) (d : Drinker) (pool : ResourcePool) (rnd : Nat)
    (tryLockOk : Nat → Bool)
    (h1 : 1 ≤ pool.totalResources) (hlen : pool.totalResources ≤ pool.resources.length)
    (hlc : ∀ r ∈ pool.resources, r.lockCount < INT_MAX)
    (hfree : ownerAt pool (Int.tmod (rnd : Int) pool.totalResources).toNat = none) :
    ∃ res, TryToGetResources tid d pool rnd tryLockOk = .returned res := by
  obtain ⟨htry, htrylt⟩ := trying_eq rnd h1
  have hlt : (Int.tmod (rnd : Int) pool.totalResources).toNat < pool.resources.length := by
    omega
  obtain ⟨f, hf⟩ : ∃ f, pool.resources[(Int.tmod (rnd : Int) pool.totalResources).toNat]?
      = some f := ⟨_, List.getElem?_eq_getElem hlt⟩
  have hfm : f.resourceMutex = none := by
    rw [ownerAt_of_get hf] at hfree
    exact hfree
  unfold TryToGetResources
  have h0 : pool.totalResources ≠ 0 := by omega
  simp only [h0, if_false, lockFirst_defined tid d hf hfm (hlc f (List.getElem?_mem hf))]
  refine secondScan_defined tid _ tryLockOk _ _ (store_get_self _ hf) rfl _ ?_ ?_
  · intro i hi
    rw [store_length]
    have := List.mem_range.mp hi
    omega
  · intro i r hne hr
    rw [store_get_ne _ _ (Ne.symm hne)] at hr
    exact hlc r (List.getElem?_mem hr)

theorem useResource_defined {pool : ResourcePool} {i : Nat} {r : Resource}
    (hr : pool.resources[i]? = some r) (hlt : r.useCount < INT_MAX) :
    useResource pool (some i) = some (pool.store i { r with useCount := r.useCount + 1 }) := by
  simp [useResource, hr, increment_of_lt hlt]

theorem unlockResource_defined {tid : Nat} {pool : ResourcePool} {i : Nat} {r : Resource}
    (hr : pool.resources[i]? = some r) (hm : r.resourceMutex = some tid) :
    unlockResource tid pool (some i) = some (pool.store i { r with resourceMutex := none }) := by
  simp [unlockResource, hr, hm]

/-- The call `Drink` returns when the two slots point to different resources whose mutexes the caller
owns and no counter it increments is at `INT_MAX`. -/
theorem Drink_defined (tid : Nat) (d : Drinker) (pool : ResourcePool) (r1 r2 r3 : Nat)
    {b o : Nat} {rb ro : Resource} (hb : d.bottle = some b) (ho : d.opener = some o)
    (hne : b ≠ o) (hrb : pool.resources[b]? = some rb) (hro : pool.resources[o]? = some ro)
    (hmb : rb.resourceMutex = some tid) (hmo : ro.resourceMutex = some tid)
    (hbu : rb.useCount < INT_MAX) (hou : ro.useCount < INT_MAX)
    (hdc : d.drinkCount < INT_MAX) :
    ∃ res, Drink tid d pool r1 r2 r3 = .returned res := by
  have hro1 : (pool.store b { rb with useCount := rb.useCount + 1 }).resources[o]?
      = some ro := by
    rw [store_get_ne _ _ hne]; exact hro
  have hrb2 : ((pool.store b { rb with useCount := rb.useCount + 1 }).store o
      { ro with useCount := ro.useCount + 1 }).resources[b]?
      = some { rb with useCount := rb.useCount + 1 } := by
    rw [store_get_ne _ _ (Ne.symm hne)]; exact store_get_self _ hrb
  have hro3 : (((pool.store b { rb with useCount := rb.useCount + 1 }).store o
      { ro with useCount := ro.useCount + 1 }).store b
      { rb with useCount := rb.useCount + 1, resourceMutex := none }).resources[o]?
      = some { ro with useCount := ro.useCount + 1 } := by
    rw [store_get_ne _ _ hne]; exact store_get_self _ hro1
  unfold Drink
  simp only [hb, ho]
  rw [useResource_defined hrb hbu]
  simp only
  rw [useResource_defined hro1 hou]
  simp only
  rw [unlockResource_defined hrb2 hmb]
  simp only
  rw [unlockResource_defined hro3 hmo]
  simp only [increment_of_lt hdc]
  exact ⟨_, rfl⟩

/-- The call `TryToDrink` returns on a pool of bottles and openers when
`1 <= totalResources <= resources.size()`, the mutex of the first pick is free and no
counter is at `INT_MAX`. -/
theorem TryToDrink_defined (tid : Nat) (d : Drinker) (pool : ResourcePool) (rnd : Nat)
    (tryLockOk : Nat → Bool) (r1 r2 r3 : Nat)
    (htype : ∀ r ∈ pool.resources, r.type = ResourceType.Bottle ∨ r.type = ResourceType.Opener)
    (h1 : 1 ≤ pool.totalResources) (hlen : pool.totalResources ≤ pool.resources.length)
    (hres : ∀ r ∈ pool.resources, r.lockCount < INT_MAX ∧ r.useCount < INT_MAX)
    (hdc : d.drinkCount < INT_MAX)
    (hfree : ownerAt pool (Int.tmod (rnd : Int) pool.totalResources).toNat = none) :
    ∃ res, TryToDrink tid d pool rnd tryLockOk r1 r2 r3 = .returned res := by
  obtain ⟨⟨b, d1, pool1⟩, hget⟩ := TryToGetResources_defined tid d pool rnd tryLockOk h1 hlen
    (fun r hr => (hres r hr).1) hfree
  unfold TryToDrink
  rw [hget]
  cases b with
  | false => exact ⟨_, rfl⟩
  | true =>
    simp only
    obtain ⟨_, f, hf, _, _, hcase⟩ := TryToGetResources_returned hget
    rcases hcase with ⟨hb, _⟩ | ⟨_, i, s, _, hne, hs, hty, _, _, _, hp, hd⟩
    · cases hb
    · have hpi : pool1.resources[i]? = some
          { s with resourceMutex := some tid, lockCount := s.lockCount + 1 } := by
        have hs1 := hs
        rw [← store_get_ne pool _ (Ne.symm hne)] at hs1
        rw [hp]
        exact store_get_self _ hs1
      have hpt : pool1.resources[(Int.tmod (rnd : Int) pool.totalResources).toNat]? = some
          { f with resourceMutex := some tid, lockCount := f.lockCount + 1 } := by
        rw [hp, store_get_ne _ _ hne]
        exact store_get_self _ hf
      have hfu := (hres f (List.getElem?_mem hf)).2
      have hsu := (hres s (List.getElem?_mem hs)).2
      have hdc1 : d1.drinkCount < INT_MAX := by
        rw [hd]
        unfold bindFirst
        split <;> split <;> exact hdc
      have hdrink : ∃ res, Drink tid d1 pool1 r1 r2 r3 = .returned res := by
        rcases htype f (List.getElem?_mem hf) with hfB | hfO
        · have hsO : s.type = ResourceType.Opener := by
            rcases htype s (List.getElem?_mem hs) with hsB | hsO
            · exact absurd (hsB.trans hfB.symm) hty
            · exact hsO
          refine Drink_defined tid d1 pool1 r1 r2 r3 ?_ ?_ (Ne.symm hne) hpt hpi rfl rfl
            hfu hsu hdc1
          · rw [hd]; simp [hsO, bindFirst, hfB]
          · rw [hd]; simp [hsO]
        · have hsB : s.type = ResourceType.Bottle := by
            rcases htype s (List.getElem?_mem hs) with hsB | hsO
            · exact hsB
            · exact absurd (hsO.trans hfO.symm) hty
          refine Drink_defined tid d1 pool1 r1 r2 r3 ?_ ?_ hne hpi hpt rfl rfl hsu hfu hdc1
          · rw [hd]; simp [hsB]
          · rw [hd]; simp [hsB, bindFirst, hfO]
      obtain ⟨⟨d2, pool2, sleeps⟩, hdr⟩ := hdrink
      rw [hdr]
      exact ⟨_, rfl⟩

/-! ## Where a call can wait -/

theorem tryLockSecond_ne_blocked (tid trying : Nat) (ok : Bool) (i : Nat) (d : Drinker)
    (pool : ResourcePool) : tryLockSecond tid trying ok i d pool ≠ .blocked := by
  unfold tryLockSecond
  split
  · split
    · split
      · split
        · simp
        · simp only
          split <;> simp
      · simp
    · simp
  · simp

theorem secondScan_ne_blocked (tid trying : Nat)
    (tryLockOk : Nat → Bool) (rest : List Nat) (d : Drinker) (pool : ResourcePool) :
    secondScan tid trying tryLockOk rest d pool ≠ .blocked := by
  induction rest with
  | nil =>
    unfold secondScan
    split <;> simp
  | cons i rest ih =>
    unfold secondScan
    split
    · simp
    · rename_i hb
      exact absurd hb (tryLockSecond_ne_blocked _ _ _ _ _ _)
    · simp
    · exact ih

/-- The only place where `lockFirst` waits: another thread owns the mutex. -/
theorem lockFirst_blocked {tid trying : Nat} {d : Drinker} {pool : ResourcePool}
    (h : lockFirst tid d pool trying = .blocked) :
    ∃ other, other ≠ tid ∧ ownerAt pool trying = some other := by
  unfold lockFirst at h
  split at h
  · cases h
  · rename_i f hf
    split at h
    · rename_i owner hm
      split at h
      · cases h
      · rename_i hne
        exact ⟨owner, hne, by rw [ownerAt_of_get hf, hm]⟩
    · split at h <;> cases h

/-- The only place where `TryToGetResources` waits is the `lock()` of its first pick, and
then another thread owns that mutex. -/
theorem TryToGetResources_blocked {tid : Nat} {d : Drinker} {pool : ResourcePool}
    {rnd : Nat} {tryLockOk : Nat → Bool}
    (h : TryToGetResources tid d pool rnd tryLockOk = .blocked) :
    ∃ other, other ≠ tid ∧
      ownerAt pool (Int.tmod (rnd : Int) pool.totalResources).toNat = some other := by
  unfold TryToGetResources at h
  simp only at h
  split at h
  · cases h
  · split at h
    · cases h
    · rename_i hl
      exact lockFirst_blocked hl
    · exact absurd h (secondScan_ne_blocked _ _ _ _ _ _)

theorem Drink_ne_blocked (tid : Nat) (d : Drinker) (pool : ResourcePool) (r1 r2 r3 : Nat) :
    Drink tid d pool r1 r2 r3 ≠ .blocked := by
  unfold Drink
  simp only
  repeat' split
  all_goals simp

theorem TryToDrink_blocked {tid : Nat} {d : Drinker} {pool : ResourcePool}
    {rnd : Nat} {tryLockOk : Nat → Bool} {r1 r2 r3 : Nat}
    (h : TryToDrink tid d pool rnd tryLockOk r1 r2 r3 = .blocked) :
    TryToGetResources tid d pool rnd tryLockOk = .blocked := by
  unfold TryToDrink at h
  split at h
  · cases h
  · assumption
  · split at h
    · cases h
    · rename_i hd
      exact absurd hd (Drink_ne_blocked _ _ _ _ _ _)
    · cases h
  · cases h

/-- C3: a thread that owns no resource mutex when it calls `TryToDrink` owns none when the
call returns, and every mutex has the owner it had before.  On success the two mutexes
`TryToGetResources` locked are exactly the bottle and opener slots, and `Drink` unlocked
both; on failure the result is that of `TryToGetResources`, which left every mutex as it
was.  When the call waits, it waits in the `lock()` of its first pick, whose mutex another
thread owns.  The call does return on a pool of bottles and openers with
`1 <= totalResources <= size` when the mutex of the first pick is free and no counter is
at `INT_MAX`. -/
theorem TryToDrink_release_discipline
    (tid : Nat) (d : Drinker) (pool : ResourcePool) (rnd : Nat) (tryLockOk : Nat → Bool)
    (r1 r2 r3 : Nat) (hno : holdsNoLock tid pool) :
    (∀ b d' pool' sleeps,
      TryToDrink tid d pool rnd tryLockOk r1 r2 r3 = .returned (b, d', pool', sleeps) →
      holdsNoLock tid pool' ∧ (∀ j, ownerAt pool' j = ownerAt pool j) ∧
      (b = true → ∃ d1 pool1 x y,
        TryToGetResources tid d pool rnd tryLockOk = .returned (true, d1, pool1) ∧
        Drink tid d1 pool1 r1 r2 r3 = .returned (d', pool', sleeps) ∧
        d1.bottle = some x ∧ d1.opener = some y ∧ x ≠ y ∧
        (∀ j, ownerAt pool1 j = some tid ↔ (j = x ∨ j = y)) ∧
        ownerAt pool' x = none ∧ ownerAt pool' y = none) ∧
      (b = false →
        TryToGetResources tid d pool rnd tryLockOk = .returned (false, d', pool'))) ∧
    (TryToDrink tid d pool rnd tryLockOk r1 r2 r3 = .blocked →
      ∃ other, other ≠ tid ∧
        ownerAt pool (Int.tmod (rnd : Int) pool.totalResources).toNat = some other) ∧
    ((∀ r ∈ pool.resources, r.type = ResourceType.Bottle ∨ r.type = ResourceType.Opener) →
      1 ≤ pool.totalResources → pool.totalResources ≤ pool.resources.length →
      (∀ r ∈ pool.resources, r.lockCount < INT_MAX ∧ r.useCount < INT_MAX) →
      d.drinkCount < INT_MAX →
      ownerAt pool (Int.tmod (rnd : Int) pool.totalResources).toNat = none →
      ∃ res, TryToDrink tid d pool rnd tryLockOk r1 r2 r3 = .returned res) := by
  have hno' := holdsNoLock_iff.mp hno
  refine ⟨?_, fun h => TryToGetResources_blocked (TryToDrink_blocked h),
    fun htype h1 hlen hres hdc hfree =>
      TryToDrink_defined tid d pool rnd tryLockOk r1 r2 r3 htype h1 hlen hres hdc hfree⟩
  intro b d' pool' sleeps h
  rcases TryToDrink_returned h with ⟨hb, _, hget⟩ | ⟨hb, d1, pool1, hget, hdrink⟩
  · rcases TryToGetResources_owner hget with ⟨_, hown⟩ | ⟨hc, _⟩
    · refine ⟨?_, hown, ?_, fun _ => hget⟩
      · rw [holdsNoLock_iff]
        intro j
        rw [hown j]
        exact hno' j
      · intro hb'
        rw [hb] at hb'
        cases hb'
    · cases hc
  · rcases TryToGetResources_owner hget with ⟨hc, _⟩ | ⟨_, t, i, hti, hpt, hpi, h1t, h1i, hrest⟩
    · cases hc
    · obtain ⟨x, y, hxy, hbx, hoy, h1x, h1y, h2x, h2y, hrest2⟩ := Drink_owner hdrink
      have hmem : ∀ j, ownerAt pool1 j = some tid → j = t ∨ j = i := by
        intro j hj
        by_contra hcon
        push_neg at hcon
        rw [hrest j hcon.1 hcon.2] at hj
        exact hno' j hj
      have hxti := hmem x h1x
      have hyti := hmem y h1y
      have hiff : ∀ j, ownerAt pool1 j = some tid ↔ (j = x ∨ j = y) := by
        intro j
        constructor
        · intro hj
          rcases hmem j hj with rfl | rfl
          · rcases hxti with rfl | rfl
            · exact Or.inl rfl
            · rcases hyti with rfl | rfl
              · exact Or.inr rfl
              · exact absurd rfl hxy
          · rcases hxti with rfl | rfl
            · rcases hyti with rfl | rfl
              · exact absurd rfl hxy
              · exact Or.inr rfl
            · exact Or.inl rfl
        · rintro (rfl | rfl)
          · exact h1x
          · exact h1y
      have hown : ∀ j, ownerAt pool' j = ownerAt pool j := by
        intro j
        by_cases hjx : j = x
        · subst hjx
          rw [h2x]
          rcases hxti with rfl | rfl
          · exact hpt.symm
          · exact hpi.symm
        · by_cases hjy : j = y
          · subst hjy
            rw [h2y]
            rcases hyti with rfl | rfl
            · exact hpt.symm
            · exact hpi.symm
          · rw [hrest2 j hjx hjy]
            have hjn : ¬ (ownerAt pool1 j = some tid) := fun hj => by
              rcases (hiff j).mp hj with rfl | rfl
              · exact hjx rfl
              · exact hjy rfl
            by_cases hjt : j = t
            · subst hjt; exact absurd h1t hjn
            · by_cases hji : j = i
              · subst hji; exact absurd h1i hjn
              · exact hrest j hjt hji
      refine ⟨?_, hown, fun _ => ⟨d1, pool1, x, y, hget, hdrink, hbx, hoy, hxy, hiff, h2x, h2y⟩, ?_⟩
      · rw [holdsNoLock_iff]
        intro j
        rw [hown j]
        exact hno' j
      · intro hb'
        rw [hb] at hb'
        cases hb'

/-! ## Sequences of calls -/

theorem mem_store {pool : ResourcePool} {i : Nat} {x r : Resource}
    (h : r ∈ (pool.store i x).resources) : r ∈ pool.resources ∨ r = x :=
  List.mem_or_eq_of_mem_set h

/-- Every resource after `TryToGetResources` is a resource from before, or one whose mutex
was free and that the call locked (and perhaps unlocked), adding one to its `lockCount`. -/
theorem TryToGetResources_mem {tid : Nat} {d d' : Drinker} {pool pool' : ResourcePool}
    {rnd : Nat} {tryLockOk : Nat → Bool} {b : Bool}
    (h : TryToGetResources tid d pool rnd tryLockOk = .returned (b, d', pool'))
    {x : Resource} (hx : x ∈ pool'.resources) :
    x ∈ pool.resources ∨ ∃ r ∈ pool.resources, r.resourceMutex = none ∧
      r.lockCount < INT_MAX ∧
      ∃ m, x = { r with resourceMutex := m, lockCount := r.lockCount + 1 } := by
  obtain ⟨_, f, hf, hfm, hflt, hcase⟩ := TryToGetResources_returned h
  rcases hcase with ⟨_, _, hp⟩ | ⟨_, i, s, _, _, hs, _, hsm, _, hslt, hp, _⟩
  · rw [hp] at hx
    rcases mem_store hx with hx | hx
    · exact Or.inl hx
    · exact Or.inr ⟨f, List.getElem?_mem hf, hfm, hflt, f.resourceMutex, hx⟩
  · rw [hp] at hx
    rcases mem_store hx with hx | hx
    · rcases mem_store hx with hx | hx
      · exact Or.inl hx
      · exact Or.inr ⟨f, List.getElem?_mem hf, hfm, hflt, some tid, hx⟩
    · exact Or.inr ⟨s, List.getElem?_mem hs, hsm, hslt, some tid, hx⟩

/-- Every resource after `Drink` is a resource from before, or one the caller owned and
that the call used and unlocked. -/
theorem Drink_mem {tid : Nat} {d d' : Drinker} {pool pool' : ResourcePool}
    {r1 r2 r3 : Nat} {sleeps : List Sleep}
    (h : Drink tid d pool r1 r2 r3 = .returned (d', pool', sleeps))
    {x : Resource} (hx : x ∈ pool'.resources) :
    x ∈ pool.resources ∨ ∃ r ∈ pool.resources, r.resourceMutex = some tid ∧
      x = { r with useCount := r.useCount + 1, resourceMutex := none } := by
  obtain ⟨b, o, rb, ro, _, _, _, hrb, hro, hmb, hmo, _, _, _, hp, _, _⟩ := Drink_returned h
  rw [hp] at hx
  rcases mem_store hx with hx | hx
  · rcases mem_store hx with hx | hx
    · exact Or.inl hx
    · exact Or.inr ⟨rb, List.getElem?_mem hrb, hmb, hx⟩
  · exact Or.inr ⟨ro, List.getElem?_mem hro, hmo, hx⟩

theorem update_update (w : World) (tid : Nat) (d d' : Drinker) (pool pool' : ResourcePool) :
    (w.update tid d pool).update tid d' pool' = w.update tid d' pool' := by
  simp [World.update, List.set_set]

theorem update_drinker {w : World} {tid : Nat} {d0 : Drinker} (d : Drinker)
    (pool : ResourcePool) (h : w.poolOfDrinkers.drinkers[tid]? = some d0) :
    (w.update tid d pool).poolOfDrinkers.drinkers[tid]? = some d := by
  have hlt : tid < w.poolOfDrinkers.drinkers.length := by
    rcases List.getElem?_eq_some.mp h with ⟨hlt, _⟩
    exact hlt
  simp [World.update, List.getElem?_set, hlt]

/-- A property that each call of `TryToGetResources` and each call of `Drink` keeps is kept
by every call. -/
theorem World.call_invariant {P : World → Prop}
    (hget : ∀ w tid d rnd tryLockOk b d' pool', P w →
      w.poolOfDrinkers.drinkers[tid]? = some d →
      TryToGetResources tid d w.poolOfResources rnd tryLockOk = .returned (b, d', pool') →
      P (w.update tid d' pool'))
    (hdrink : ∀ w tid d r1 r2 r3 d' pool' sleeps, P w →
      w.poolOfDrinkers.drinkers[tid]? = some d →
      Drink tid d w.poolOfResources r1 r2 r3 = .returned (d', pool', sleeps) →
      P (w.update tid d' pool'))
    {w w' : World} {c : Call} (hP : P w) (h : w.call c = .returned w') : P w' := by
  cases c with
  | tryToGetResources tid rnd tryLockOk =>
    simp only [World.call] at h
    split at h
    · cases h
    · rename_i d hd
      split at h
      · cases h
      · cases h
      · rename_i b d' pool' hg
        cases h
        exact hget w tid d rnd tryLockOk b d' pool' hP hd hg
  | drink tid r1 r2 r3 =>
    simp only [World.call] at h
    split at h
    · cases h
    · rename_i d hd
      split at h
      · cases h
      · cases h
      · rename_i d' pool' sleeps hg
        cases h
        exact hdrink w tid d r1 r2 r3 d' pool' sleeps hP hd hg
  | tryToDrink tid rnd tryLockOk r1 r2 r3 =>
    simp only [World.call] at h
    split at h
    · cases h
    · rename_i d hd
      split at h
      · cases h
      · cases h
      · rename_i b d' pool' sleeps hg
        cases h
        rcases TryToDrink_returned hg with ⟨_, _, hget'⟩ | ⟨_, d1, pool1, hget', hdrink'⟩
        · exact hget w tid d rnd tryLockOk false d' pool' hP hd hget'
        · have h1 := hget w tid d rnd tryLockOk true d1 pool1 hP hd hget'
          have h2 := hdrink (w.update tid d1 pool1) tid d1 r1 r2 r3 d' pool' sleeps h1
            (update_drinker d1 pool1 hd) hdrink'
          rw [update_update] at h2
          exact h2

/-- A property that every call keeps holds after every sequence of calls. -/
theorem World.run_invariant {P : World → Prop}
    (hstep : ∀ w c w', P w → w.call c = .returned w' → P w')
    (calls : List Call) : ∀ (w0 w : World), P w0 → w0.run calls = .returned w → P w := by
  induction calls with
  | nil =>
    intro w0 w h0 h
    unfold World.run at h
    cases h
    exact h0
  | cons c rest ih =>
    intro w0 w h0 h
    unfold World.run at h
    split at h
    · cases h
    · cases h
    · rename_i w1 h1
      exact ih w1 w (hstep w0 c w1 h0 h1) h

/-! ## The counter relation -/

theorem lockedBeforeUsed_step (w : World) (c : Call) (w' : World)
    (h0 : ∀ r ∈ w.poolOfResources.resources, lockedBeforeUsed r)
    (h : w.call c = .returned w') :
    ∀ r ∈ w'.poolOfResources.resources, lockedBeforeUsed r := by
  refine World.call_invariant
    (P := fun w => ∀ r ∈ w.poolOfResources.resources, lockedBeforeUsed r) ?_ ?_ h0 h
  · intro w tid d rnd tryLockOk b d' pool' hw _ hg x hx
    rcases TryToGetResources_mem hg hx with hx | ⟨r, hr, hrm, _, m, rfl⟩
    · exact hw x hx
    · have := hw r hr
      unfold lockedBeforeUsed at this ⊢
      simp only [hrm, if_true] at this
      simp only
      split <;> omega
  · intro w tid d r1 r2 r3 d' pool' sleeps hw _ hg x hx
    rcases Drink_mem hg hx with hx | ⟨r, hr, hrm, rfl⟩
    · exact hw x hx
    · have := hw r hr
      unfold lockedBeforeUsed at this ⊢
      simp only [hrm] at this
      simp only [if_true]
      simp at this
      omega

/-- C6: from the state `main` builds (all counters zero, all mutexes free), after every
sequence of completed calls of `TryToGetResources`, `Drink` and `TryToDrink` by any
threads, every resource of the pool has `lockCount >= useCount`. -/
theorem lockCount_ge_useCount (w0 w : World) (calls : List Call) (h0 : w0.initial)
    (h : w0.run calls = .returned w) :
    ∀ r ∈ w.poolOfResources.resources, r.lockCount ≥ r.useCount := by
  have key : ∀ r ∈ w.poolOfResources.resources, lockedBeforeUsed r := by
    refine World.run_invariant
      (P := fun w => ∀ r ∈ w.poolOfResources.resources, lockedBeforeUsed r)
      lockedBeforeUsed_step calls w0 w ?_ h
    intro r hr
    have := (h0.1 r hr).1
    rw [this]
    simp [lockedBeforeUsed, Resource.new]
  intro r hr
  have := key r hr
  unfold lockedBeforeUsed at this
  split at this <;> omega

/-! ## Conservation -/

theorem sum_map_set {α : Type} (g : α → Int) :
    ∀ (l : List α) (i : Nat) (a x : α), l[i]? = some a →
      ((l.set i x).map g).sum = (l.map g).sum - g a + g x := by
  intro l
  induction l with
  | nil => intro i a x h; simp at h
  | cons y l ih =>
    intro i a x h
    cases i with
    | zero =>
      simp at h
      subst h
      simp only [List.set_cons_zero, List.map_cons, List.sum_cons]
      omega
    | succ i =>
      simp at h
      simp only [List.set_cons_succ, List.map_cons, List.sum_cons, ih i a x h]
      omega

theorem sumUseCount_store (type : ResourceType) {pool : ResourcePool} {i : Nat}
    {r : Resource} (x : Resource) (h : pool.resources[i]? = some r) :
    sumUseCount type (pool.store i x) = sumUseCount type pool
      - (if r.type = type then r.useCount else 0) + (if x.type = type then x.useCount else 0) := by
  unfold sumUseCount ResourcePool.store
  exact sum_map_set (fun r : Resource => if r.type = type then r.useCount else 0)
    pool.resources i r x h

theorem typeAt_of_get {pool : ResourcePool} {i : Nat} {r : Resource}
    (h : pool.resources[i]? = some r) : typeAt pool i = some r.type := by
  simp [typeAt, h]

theorem typeAt_store {pool : ResourcePool} {i : Nat} {r : Resource} (x : Resource)
    (h : pool.resources[i]? = some r) (hx : x.type = r.type) (j : Nat) :
    typeAt (pool.store i x) j = typeAt pool j := by
  by_cases hij : i = j
  · subst hij
    rw [typeAt_of_get (store_get_self x h), typeAt_of_get h, hx]
  · simp [typeAt, store_get_ne pool x hij]

/-- The call `TryToGetResources` changes no type, no `useCount` and no counter of the
drinker. -/
theorem TryToGetResources_frame {tid : Nat} {d d' : Drinker} {pool pool' : ResourcePool}
    {rnd : Nat} {tryLockOk : Nat → Bool} {b : Bool}
    (h : TryToGetResources tid d pool rnd tryLockOk = .returned (b, d', pool')) :
    (∀ j, typeAt pool' j = typeAt pool j) ∧
    (∀ type, sumUseCount type pool' = sumUseCount type pool) ∧
    d'.id = d.id ∧ d'.drinkCount = d.drinkCount ∧ d'.resourceTryCount = d.resourceTryCount := by
  obtain ⟨_, f, hf, _, _, hcase⟩ := TryToGetResources_returned h
  have hbind : ∀ t n, (bindFirst d t n).id = d.id ∧ (bindFirst d t n).drinkCount = d.drinkCount
      ∧ (bindFirst d t n).resourceTryCount = d.resourceTryCount := by
    intro t n
    unfold bindFirst
    split <;> exact ⟨rfl, rfl, rfl⟩
  rcases hcase with ⟨_, hd, hp⟩ | ⟨_, i, s, _, hne, hs, _, _, _, _, hp, hd⟩
  · refine ⟨fun j => ?_, fun type => ?_, ?_⟩
    · rw [hp]; exact typeAt_store _ hf (by rfl) j
    · rw [hp, sumUseCount_store type _ hf]; simp
    · rw [hd]; exact hbind _ _
  · have hs1 : (pool.store (Int.tmod (rnd : Int) pool.totalResources).toNat
        { f with resourceMutex := some tid, lockCount := f.lockCount + 1 }).resources[i]?
        = some s := by
      rw [store_get_ne _ _ (Ne.symm hne)]; exact hs
    refine ⟨fun j => ?_, fun type => ?_, ?_⟩
    · rw [hp]; exact (typeAt_store _ hs1 (by rfl) j).trans (typeAt_store _ hf (by rfl) j)
    · rw [hp, sumUseCount_store type _ hs1, sumUseCount_store type _ hf]; simp
    · rw [hd]
      split <;> exact hbind _ _

/-- On a pool of bottles and openers `TryToGetResources` keeps the slots typed. -/
theorem TryToGetResources_slotsTyped {tid : Nat} {d d' : Drinker} {pool pool' : ResourcePool}
    {rnd : Nat} {tryLockOk : Nat → Bool} {b : Bool}
    (htype : ∀ r ∈ pool.resources, r.type = ResourceType.Bottle ∨ r.type = ResourceType.Opener)
    (hd0 : slotsTyped d pool)
    (h : TryToGetResources tid d pool rnd tryLockOk = .returned (b, d', pool')) :
    slotsTyped d' pool := by
  obtain ⟨_, f, hf, _, _, hcase⟩ := TryToGetResources_returned h
  have hbind : slotsTyped (bindFirst d f.type (Int.tmod (rnd : Int) pool.totalResources).toNat)
      pool := by
    unfold bindFirst
    split
    · rename_i hB
      refine ⟨fun b hb => ?_, hd0.2⟩
      simp only [Option.some.injEq] at hb
      subst hb
      rw [typeAt_of_get hf, hB]
    · rename_i hB
      refine ⟨hd0.1, fun o ho => ?_⟩
      simp only [Option.some.injEq] at ho
      subst ho
      rw [typeAt_of_get hf]
      rcases htype f (List.getElem?_mem hf) with h1 | h1
      · exact absurd h1 hB
      · rw [h1]
  rcases hcase with ⟨_, hd, _⟩ | ⟨_, i, s, _, _, hs, _, _, _, _, _, hd⟩
  · rw [hd]; exact hbind
  · rw [hd]
    split
    · rename_i hB
      refine ⟨fun b hb => ?_, hbind.2⟩
      simp only [Option.some.injEq] at hb
      subst hb
      rw [typeAt_of_get hs, hB]
    · rename_i hB
      refine ⟨hbind.1, fun o ho => ?_⟩
      simp only [Option.some.injEq] at ho
      subst ho
      rw [typeAt_of_get hs]
      rcases htype s (List.getElem?_mem hs) with h1 | h1
      · exact absurd h1 hB
      · rw [h1]

/-- The call `Drink` changes no type, adds one to the use count of the bottle slot's resource and of
the opener slot's resource, and one to the drinker's `drinkCount`. -/
theorem Drink_frame {tid : Nat} {d d' : Drinker} {pool pool' : ResourcePool}
    {r1 r2 r3 : Nat} {sleeps : List Sleep} (hd0 : slotsTyped d pool)
    (h : Drink tid d pool r1 r2 r3 = .returned (d', pool', sleeps)) :
    (∀ j, typeAt pool' j = typeAt pool j) ∧
    sumUseCount ResourceType.Bottle pool' = sumUseCount ResourceType.Bottle pool + 1 ∧
    sumUseCount ResourceType.Opener pool' = sumUseCount ResourceType.Opener pool + 1 ∧
    d'.drinkCount = d.drinkCount + 1 ∧ d'.bottle = none ∧ d'.opener = none ∧
    d'.id = d.id ∧ d'.resourceTryCount = d.resourceTryCount := by
  obtain ⟨b, o, rb, ro, hb, ho, hne, hrb, hro, _, _, _, _, _, hp, hd, _⟩ := Drink_returned h
  have hbt : rb.type = ResourceType.Bottle := by
    have := hd0.1 b hb
    rw [typeAt_of_get hrb] at this
    exact Option.some.inj this
  have hot : ro.type = ResourceType.Opener := by
    have := hd0.2 o ho
    rw [typeAt_of_get hro] at this
    exact Option.some.inj this
  have hro1 : (pool.store b
      { rb with useCount := rb.useCount + 1, resourceMutex := none }).resources[o]?
      = some ro := by
    rw [store_get_ne _ _ hne]; exact hro
  refine ⟨fun j => ?_, ?_, ?_, ?_⟩
  · rw [hp]; exact (typeAt_store _ hro1 (by rfl) j).trans (typeAt_store _ hrb (by rfl) j)
  · rw [hp, sumUseCount_store _ _ hro1, sumUseCount_store _ _ hrb]
    simp only [hbt, hot, if_true, reduceCtorEq, if_false]
    omega
  · rw [hp, sumUseCount_store _ _ hro1, sumUseCount_store _ _ hrb]
    simp only [hbt, hot, if_true, reduceCtorEq, if_false]
    omega
  · rw [hd]; exact ⟨rfl, rfl, rfl, rfl, rfl⟩

theorem slotsTyped_of_typeAt {d : Drinker} {pool pool' : ResourcePool}
    (ht : ∀ j, typeAt pool' j = typeAt pool j) (h : slotsTyped d pool) : slotsTyped d pool' :=
  ⟨fun b hb => (ht b).trans (h.1 b hb), fun o ho => (ht o).trans (h.2 o ho)⟩

theorem sumDrinkCount_set {drinkers : List Drinker} {tid : Nat} {d : Drinker} (d' : Drinker)
    (h : drinkers[tid]? = some d) :
    sumDrinkCount (drinkers.set tid d') = sumDrinkCount drinkers - d.drinkCount + d'.drinkCount :=
  sum_map_set (fun d : Drinker => d.drinkCount) drinkers tid d d' h

theorem sum_map_zero {α : Type} (g : α → Int) (l : List α) (h : ∀ a ∈ l, g a = 0) :
    (l.map g).sum = 0 := by
  induction l with
  | nil => rfl
  | cons a l ih =>
    simp only [List.map_cons, List.sum_cons]
    rw [h a (List.mem_cons_self _ _), ih (fun x hx => h x (List.mem_cons_of_mem _ hx))]
    rfl

theorem conserved_of_initial {w : World} (h : w.initial) : w.conserved := by
  refine ⟨fun r hr => (h.1 r hr).2, fun d hd => ?_, ?_, ?_⟩
  · have := h.2 d hd
    rw [this]
    exact ⟨fun b hb => (by cases hb), fun o ho => (by cases ho)⟩
  · have hd : sumDrinkCount w.poolOfDrinkers.drinkers = 0 := by
      apply sum_map_zero
      intro d hd
      have := h.2 d hd
      rw [this]
      rfl
    rw [hd]
    apply sum_map_zero
    intro r hr
    have := (h.1 r hr).1
    rw [this]
    simp [Resource.new]
  · have hd : sumDrinkCount w.poolOfDrinkers.drinkers = 0 := by
      apply sum_map_zero
      intro d hd
      have := h.2 d hd
      rw [this]
      rfl
    rw [hd]
    apply sum_map_zero
    intro r hr
    have := (h.1 r hr).1
    rw [this]
    simp [Resource.new]

theorem conserved_step (w : World) (c : Call) (w' : World) (h0 : w.conserved)
    (h : w.call c = .returned w') : w'.conserved := by
  refine World.call_invariant (P := World.conserved) ?_ ?_ h0 h
  · intro w tid d rnd tryLockOk b d' pool' hw hd hg
    obtain ⟨hty, hsl, hsb, hso⟩ := hw
    obtain ⟨htype, hsum, _, hdc, _⟩ := TryToGetResources_frame hg
    refine ⟨fun x hx => ?_, fun x hx => ?_, ?_, ?_⟩
    · rcases TryToGetResources_mem hg hx with hx | ⟨r, hr, _, _, m, rfl⟩
      · exact hty x hx
      · exact hty r hr
    · apply slotsTyped_of_typeAt htype
      rcases List.mem_or_eq_of_mem_set hx with hx | rfl
      · exact hsl x hx
      · exact TryToGetResources_slotsTyped hty (hsl d (List.getElem?_mem hd)) hg
    · show sumUseCount _ pool' = sumDrinkCount (w.poolOfDrinkers.drinkers.set tid d')
      rw [hsum, sumDrinkCount_set d' hd, hdc, hsb]
      omega
    · show sumUseCount _ pool' = sumDrinkCount (w.poolOfDrinkers.drinkers.set tid d')
      rw [hsum, sumDrinkCount_set d' hd, hdc, hso]
      omega
  · intro w tid d r1 r2 r3 d' pool' sleeps hw hd hg
    obtain ⟨hty, hsl, hsb, hso⟩ := hw
    obtain ⟨htype, hb1, ho1, hdc, hbn, hon, _⟩ :=
      Drink_frame (hsl d (List.getElem?_mem hd)) hg
    refine ⟨fun x hx => ?_, fun x hx => ?_, ?_, ?_⟩
    · rcases Drink_mem hg hx with hx | ⟨r, hr, _, rfl⟩
      · exact hty x hx
      · exact hty r hr
    · rcases List.mem_or_eq_of_mem_set hx with hx | rfl
      · exact slotsTyped_of_typeAt htype (hsl x hx)
      · exact ⟨fun b hb => (by rw [hbn] at hb; cases hb), fun o ho => (by rw [hon] at ho; cases ho)⟩
    · show sumUseCount _ pool' = sumDrinkCount (w.poolOfDrinkers.drinkers.set tid d')
      rw [hb1, sumDrinkCount_set d' hd, hdc, hsb]
      omega
    · show sumUseCount _ pool' = sumDrinkCount (w.poolOfDrinkers.drinkers.set tid d')
      rw [ho1, sumDrinkCount_set d' hd, hdc, hso]
      omega

/-- C5: from the state `main` builds (bottles and openers, all counters zero), after every
sequence of completed calls by any threads, with any values of `myRand()` and any outcomes
of `try_lock`, the use counts of the bottles, the use counts of the openers and the drink
counts of the drinkers have the same sum. -/
theorem global_conservation (w0 w : World) (calls : List Call) (h0 : w0.initial)
    (h : w0.run calls = .returned w) :
    sumUseCount ResourceType.Bottle w.poolOfResources
      = sumUseCount ResourceType.Opener w.poolOfResources ∧
    sumUseCount ResourceType.Opener w.poolOfResources
      = sumDrinkCount w.poolOfDrinkers.drinkers := by
  have key : w.conserved :=
    World.run_invariant conserved_step calls w0 w (conserved_of_initial h0) h
  exact ⟨key.2.2.1.trans key.2.2.2.symm, key.2.2.2⟩

/-! ## A pool of one type -/

theorem TryToGetResources_one_type {tid : Nat} {d d' : Drinker} {pool pool' : ResourcePool}
    {rnd : Nat} {tryLockOk : Nat → Bool} {b : Bool} {type : ResourceType}
    (hsame : ∀ r ∈ pool.resources, r.type = type)
    (h : TryToGetResources tid d pool rnd tryLockOk = .returned (b, d', pool')) :
    b = false := by
  obtain ⟨_, f, hf, _, _, hcase⟩ := TryToGetResources_returned h
  rcases hcase with ⟨hb, _⟩ | ⟨_, i, s, _, _, hs, hty, _⟩
  · exact hb
  · exact absurd ((hsame s (List.getElem?_mem hs)).trans
      (hsame f (List.getElem?_mem hf)).symm) hty

theorem dry_step (type : ResourceType) (w : World) (c : Call) (w' : World)
    (h0 : w.dry type) (h : w.call c = .returned w') : w'.dry type := by
  refine World.call_invariant (P := World.dry type) ?_ ?_ h0 h
  · intro w tid d rnd tryLockOk b d' pool' hw hd hg
    obtain ⟨hr, hdr⟩ := hw
    have hb := TryToGetResources_one_type (fun r h => (hr r h).1) hg
    obtain ⟨_, _, _, hdc, _⟩ := TryToGetResources_frame hg
    obtain ⟨_, f, hf, hfm, _, hcase⟩ := TryToGetResources_returned hg
    rcases hcase with ⟨_, _, hp⟩ | ⟨hb', _⟩
    · refine ⟨fun x hx => ?_, fun x hx => ?_⟩
      · rw [hp] at hx
        rcases mem_store hx with hx | rfl
        · exact hr x hx
        · have := hr f (List.getElem?_mem hf)
          exact ⟨this.1, this.2.1, this.2.2⟩
      · rcases List.mem_or_eq_of_mem_set hx with hx | rfl
        · exact hdr x hx
        · rw [hdc]; exact hdr d (List.getElem?_mem hd)
    · rw [hb] at hb'
      cases hb'
  · intro w tid d r1 r2 r3 d' pool' sleeps hw _ hg
    obtain ⟨_, _, rb, _, _, _, _, hrb, _, hmb, _⟩ := Drink_returned hg
    have := (hw.1 rb (List.getElem?_mem hrb)).2.2
    rw [this] at hmb
    cases hmb

/-- C7: on a pool whose resources all have the same type, from the state `main` builds and
after every sequence of completed calls: every `drinkCount` and every `useCount` is 0,
`TryToGetResources` returns true for no thread, drinker, `myRand()` value and `try_lock`
outcome, and it does return false when `1 <= totalResources <= resources.size()` and no
`lockCount` is at `INT_MAX`. -/
theorem degenerate_pool_never_drinks (w0 w : World) (type : ResourceType)
    (calls : List Call) (h0 : w0.initial)
    (hsame : ∀ r ∈ w0.poolOfResources.resources, r.type = type)
    (h : w0.run calls = .returned w) :
    (∀ d ∈ w.poolOfDrinkers.drinkers, d.drinkCount = 0) ∧
    (∀ r ∈ w.poolOfResources.resources, r.useCount = 0) ∧
    (∀ tid d rnd tryLockOk b d' pool',
      TryToGetResources tid d w.poolOfResources rnd tryLockOk = .returned (b, d', pool') →
      b = false) ∧
    (1 ≤ w.poolOfResources.totalResources →
      w.poolOfResources.totalResources ≤ w.poolOfResources.resources.length →
      (∀ r ∈ w.poolOfResources.resources, r.lockCount < INT_MAX) →
      ∀ tid d rnd tryLockOk, ∃ d' pool',
        TryToGetResources tid d w.poolOfResources rnd tryLockOk
          = .returned (false, d', pool')) := by
  have hdry0 : w0.dry type := by
    refine ⟨fun r hr => ⟨hsame r hr, ?_, ?_⟩, fun d hd => ?_⟩
    · rw [(h0.1 r hr).1]; rfl
    · rw [(h0.1 r hr).1]; rfl
    · rw [h0.2 d hd]; rfl
  have key : w.dry type := World.run_invariant (dry_step type) calls w0 w hdry0 h
  refine ⟨key.2, fun r hr => (key.1 r hr).2.1, ?_, ?_⟩
  · intro tid d rnd tryLockOk b d' pool' hg
    exact TryToGetResources_one_type (fun r hr => (key.1 r hr).1) hg
  · intro h1 hlen hlc tid d rnd tryLockOk
    have hfree : ownerAt w.poolOfResources
        (Int.tmod (rnd : Int) w.poolOfResources.totalResources).toNat = none := by
      unfold ownerAt
      split
      · rfl
      · rename_i r hr
        exact (key.1 r (List.getElem?_mem hr)).2.2
    obtain ⟨⟨b, d', pool'⟩, hres⟩ :=
      TryToGetResources_defined tid d w.poolOfResources rnd tryLockOk h1 hlen hlc hfree
    have hb := TryToGetResources_one_type (fun r hr => (key.1 r hr).1) hres
    subst hb
    exact ⟨d', pool', hres⟩

/-! ## The pauses of `Drink` -/

theorem extraPause_eq (drinkCount drunkTime bathroomTime : Int) :
    extraPause drinkCount drunkTime bathroomTime
      = if drinkCount % 5 = 0 then [Sleep.drunkTime drunkTime] else [] := by
  unfold extraPause
  have h5 : Int.tmod drinkCount 5 = 0 ↔ drinkCount % 5 = 0 := by
    rw [← Int.dvd_iff_tmod_eq_zero, Int.dvd_iff_emod_eq_zero]
  have h10 : Int.tmod drinkCount 10 = 0 → drinkCount % 5 = 0 := by
    intro h
    have := Int.dvd_of_tmod_eq_zero h
    omega
  by_cases h : drinkCount % 5 = 0
  · rw [if_pos (h5.mpr h), if_pos h]
  · rw [if_neg (fun hh => h (h5.mp hh)), if_neg (fun hh => h (h10 hh)), if_neg h]

/-- C10: when `Drink` returns, with `n` the `drinkCount` after the increment, the sleeps of
the call are the drink itself (`20 + r1 % 20` ms) followed, exactly when `n % 5 = 0`, by the
`drunkTime` pause of `40 + r2 % 10` ms, which lies in 40..49; no `bathroomTime` pause is
taken for any `n`. -/
theorem Drink_extra_pause (tid : Nat) (d d' : Drinker) (pool pool' : ResourcePool)
    (r1 r2 r3 : Nat) (sleeps : List Sleep)
    (h : Drink tid d pool r1 r2 r3 = .returned (d', pool', sleeps)) :
    d'.drinkCount = d.drinkCount + 1 ∧
    sleeps = Sleep.drinkTime (20 + (r1 : Int) % 20) ::
      (if d'.drinkCount % 5 = 0 then [Sleep.drunkTime (40 + (r2 : Int) % 10)] else []) ∧
    (40 ≤ 40 + (r2 : Int) % 10 ∧ 40 + (r2 : Int) % 10 ≤ 49) ∧
    ∀ ms, Sleep.bathroomTime ms ∉ sleeps := by
  obtain ⟨_, _, _, _, _, _, _, _, _, _, _, _, _, _, _, hd, hs⟩ := Drink_returned h
  have e1 : Int.tmod (r1 : Int) 20 = (r1 : Int) % 20 :=
    Int.tmod_eq_emod (Int.ofNat_nonneg _) (by decide)
  have e2 : Int.tmod (r2 : Int) 10 = (r2 : Int) % 10 :=
    Int.tmod_eq_emod (Int.ofNat_nonneg _) (by decide)
  have hdc : d'.drinkCount = d.drinkCount + 1 := by rw [hd]
  have hsl : sleeps = Sleep.drinkTime (20 + (r1 : Int) % 20) ::
      (if d'.drinkCount % 5 = 0 then [Sleep.drunkTime (40 + (r2 : Int) % 10)] else []) := by
    rw [hs, extraPause_eq, e1, e2, hdc]
  refine ⟨hdc, hsl, by omega, fun ms hms => ?_⟩
  rw [hsl] at hms
  split at hms <;> simp at hms

/-! ## The threads, step by step -/

theorem lockFirst_spec {tid trying : Nat} {d d1 : Drinker} {pool pool1 : ResourcePool}
    (h : lockFirst tid d pool trying = .returned (d1, pool1)) :
    ownerAt pool trying = none ∧ ownerAt pool1 trying = some tid ∧
    (∀ j, j ≠ trying → ownerAt pool1 j = ownerAt pool j) ∧
    (∀ j, typeAt pool1 j = typeAt pool j) ∧
    ∃ type, typeAt pool trying = some type ∧ d1 = bindFirst d type trying := by
  obtain ⟨f, hf, hm, _, hd, hp⟩ := lockFirst_returned h
  refine ⟨?_, ?_, fun j hj => ?_, fun j => ?_, f.type, typeAt_of_get hf, hd⟩
  · rw [ownerAt_of_get hf, hm]
  · rw [hp, ownerAt_store_self _ hf]
  · rw [hp, ownerAt_store_ne _ _ (Ne.symm hj)]
  · rw [hp]; exact typeAt_store _ hf (by rfl) j

theorem tryLockSecond_spec {tid trying : Nat} {ok : Bool} {i : Nat} {d d2 : Drinker}
    {pool pool2 : ResourcePool}
    (h : tryLockSecond tid trying ok i d pool = .returned (some (d2, pool2))) :
    i ≠ trying ∧ ownerAt pool i = none ∧ ownerAt pool2 i = some tid ∧
    (∀ j, j ≠ i → ownerAt pool2 j = ownerAt pool j) ∧
    (∀ j, typeAt pool2 j = typeAt pool j) ∧
    ∃ first second, typeAt pool trying = some first ∧ typeAt pool i = some second ∧
      second ≠ first ∧
      d2 = if second = ResourceType.Bottle then { d with bottle := some i }
           else { d with opener := some i } := by
  rcases tryLockSecond_returned h with hc | ⟨f, s, hne, hf, hs, hty, hfree, _, _, hres⟩
  · cases hc
  · simp only [Option.some.injEq, Prod.mk.injEq] at hres
    obtain ⟨hd, hp⟩ := hres
    refine ⟨hne, ?_, ?_, fun j hj => ?_, fun j => ?_, f.type, s.type, typeAt_of_get hf,
      typeAt_of_get hs, hty, hd⟩
    · rw [ownerAt_of_get hs, hfree]
    · rw [hp, ownerAt_store_self _ hs]
    · rw [hp, ownerAt_store_ne _ _ (Ne.symm hj)]
    · rw [hp]; exact typeAt_store _ hs (by rfl) j

theorem unlockResource_spec {tid : Nat} {pool pool' : ResourcePool} {p : Option Nat}
    (h : unlockResource tid pool p = some pool') :
    ∃ i, p = some i ∧ ownerAt pool i = some tid ∧ ownerAt pool' i = none ∧
      (∀ j, j ≠ i → ownerAt pool' j = ownerAt pool j) ∧
      (∀ j, typeAt pool' j = typeAt pool j) := by
  obtain ⟨i, r, hp, hr, hm, hpool⟩ := unlockResource_eq_some h
  refine ⟨i, hp, ?_, ?_, fun j hj => ?_, fun j => ?_⟩
  · rw [ownerAt_of_get hr, hm]
  · rw [hpool, ownerAt_store_self _ hr]
  · rw [hpool, ownerAt_store_ne _ _ (Ne.symm hj)]
  · rw [hpool]; exact typeAt_store _ hr (by rfl) j

theorem useResource_spec {pool pool' : ResourcePool} {p : Option Nat}
    (h : useResource pool p = some pool') :
    (∀ j, ownerAt pool' j = ownerAt pool j) ∧ (∀ j, typeAt pool' j = typeAt pool j) := by
  obtain ⟨i, r, _, hr, _, hpool⟩ := useResource_eq_some h
  refine ⟨fun j => ?_, fun j => ?_⟩
  · rw [hpool]
    by_cases hij : i = j
    · subst hij
      rw [ownerAt_store_self _ hr, ownerAt_of_get hr]
    · exact ownerAt_store_ne _ _ hij
  · rw [hpool]; exact typeAt_store _ hr (by rfl) j

theorem update_pcs_self {m : Machine} {tid : Nat} {pc0 : Pc} (h : m.pcs[tid]? = some pc0)
    (d : Drinker) (pool : ResourcePool) (pc : Pc) :
    (m.update tid d pool pc).pcs[tid]? = some pc := by
  have hlt : tid < m.pcs.length := by
    rcases List.getElem?_eq_some.mp h with ⟨hlt, _⟩
    exact hlt
  simp [Machine.update, List.getElem?_set, hlt]

theorem update_pcs_ne (m : Machine) {tid h : Nat} (hne : h ≠ tid)
    (d : Drinker) (pool : ResourcePool) (pc : Pc) :
    (m.update tid d pool pc).pcs[h]? = m.pcs[h]? := by
  simp [Machine.update, List.getElem?_set, Ne.symm hne]

theorem update_drinkers_self {m : Machine} {tid : Nat} {d0 : Drinker}
    (h : m.world.poolOfDrinkers.drinkers[tid]? = some d0)
    (d : Drinker) (pool : ResourcePool) (pc : Pc) :
    (m.update tid d pool pc).world.poolOfDrinkers.drinkers[tid]? = some d :=
  update_drinker d pool h

theorem update_drinkers_ne (m : Machine) {tid h : Nat} (hne : h ≠ tid)
    (d : Drinker) (pool : ResourcePool) (pc : Pc) :
    (m.update tid d pool pc).world.poolOfDrinkers.drinkers[h]?
      = m.world.poolOfDrinkers.drinkers[h]? := by
  simp [Machine.update, World.update, List.getElem?_set, Ne.symm hne]

theorem owns_congr {pc : Pc} {h : Nat} {d : Drinker} {pool pool' : ResourcePool}
    (htype : ∀ j, typeAt pool' j = typeAt pool j)
    (hown : ∀ j, ownerAt pool j = some h → ownerAt pool' j = some h)
    (hpc : pc.owns h d pool) : pc.owns h d pool' := by
  cases pc with
  | scan trying i =>
    obtain ⟨h1, type, h2, h3⟩ := hpc
    exact ⟨hown _ h1, type, (htype _).trans h2, h3⟩
  | drink =>
    obtain ⟨b, o, hb, ho, hne, h1, h2⟩ := hpc
    exact ⟨b, o, hb, ho, hne, hown _ h1, hown _ h2⟩
  | unlockOpener =>
    obtain ⟨o, ho, h1⟩ := hpc
    exact ⟨o, ho, hown _ h1⟩
  | tryToDrink => trivial
  | lockFirst trying => trivial
  | checkStop => trivial
  | stopped => trivial

/-- A move of thread `tid` keeps the machine safe when it changes no type, leaves the
mutexes of the other threads as they are, and leaves `tid` owning what its new place
says. -/
theorem safe_update {m : Machine} (hs : m.safe) {tid : Nat} {pc0 : Pc} {d0 : Drinker}
    (hpc : m.pcs[tid]? = some pc0) (hd : m.world.poolOfDrinkers.drinkers[tid]? = some d0)
    (pc : Pc) (d : Drinker) (pool : ResourcePool)
    (htype : ∀ j, typeAt pool j = typeAt m.world.poolOfResources j)
    (hothers : ∀ j h, h ≠ tid →
      (ownerAt pool j = some h ↔ ownerAt m.world.poolOfResources j = some h))
    (hholds : ∀ j, ownerAt pool j = some tid → pc.holds d j)
    (howns : pc.owns tid d pool) : (m.update tid d pool pc).safe := by
  obtain ⟨hT, hO, hS, hL⟩ := hs
  refine ⟨fun j type hj => ?_, fun i h hi => ?_, fun h pc1 d1 hpc1 hd1 => ?_,
    by simp [Machine.update, World.update, hL]⟩
  · have hj' : typeAt pool j = some type := hj
    rw [htype] at hj'
    exact hT j type hj'
  · have hi' : ownerAt pool i = some h := hi
    by_cases hh : h = tid
    · subst hh
      exact ⟨pc, d, update_pcs_self hpc d pool pc, update_drinkers_self hd d pool pc,
        hholds i hi'⟩
    · obtain ⟨pc1, d1, h1, h2, h3⟩ := hO i h ((hothers i h hh).mp hi')
      refine ⟨pc1, d1, ?_, ?_, h3⟩
      · rw [update_pcs_ne m hh]; exact h1
      · rw [update_drinkers_ne m hh]; exact h2
  · show pc1.owns h d1 pool
    by_cases hh : h = tid
    · subst hh
      rw [update_pcs_self hpc d pool pc] at hpc1
      rw [update_drinkers_self hd d pool pc] at hd1
      cases hpc1
      cases hd1
      exact howns
    · rw [update_pcs_ne m hh] at hpc1
      rw [update_drinkers_ne m hh] at hd1
      exact owns_congr htype (fun j hj => (hothers j h hh).mpr hj) (hS h pc1 d1 hpc1 hd1)

theorem safe_holds {m : Machine} (hs : m.safe) {tid : Nat} {pc0 : Pc} {d0 : Drinker}
    (hpc : m.pcs[tid]? = some pc0) (hd : m.world.poolOfDrinkers.drinkers[tid]? = some d0)
    {j : Nat} (hj : ownerAt m.world.poolOfResources j = some tid) : pc0.holds d0 j := by
  obtain ⟨pc, d, h1, h2, h3⟩ := hs.2.1 j tid hj
  rw [hpc] at h1
  rw [hd] at h2
  cases h1
  cases h2
  exact h3

/-- Every step of a thread keeps the machine safe. -/
theorem safe_step {m m' : Machine} {tid rnd : Nat} {ok : Bool} (hs : m.safe)
    (h : m.step tid rnd ok = .returned m') : m'.safe := by
  unfold Machine.step at h
  split at h
  · rename_i pc d hpc hd
    have hT := hs.1
    have hmine : ∀ j, ownerAt m.world.poolOfResources j = some tid → pc.holds d j :=
      fun j hj => safe_holds hs hpc hd hj
    have hown := hs.2.2.1 tid pc d hpc hd
    cases pc with
    | tryToDrink =>
      simp only at h
      split at h
      · cases h
      · cases h
        exact safe_update hs hpc hd _ _ _ (fun _ => rfl) (fun _ _ _ => Iff.rfl)
          (fun j hj => hmine j hj) trivial
    | lockFirst trying =>
      simp only at h
      split at h
      · cases h
      · cases h
      · rename_i d1 pool1 hl
        cases h
        obtain ⟨hfree, hnew, hrest, htype, type, htt, hd1⟩ := lockFirst_spec hl
        refine safe_update hs hpc hd _ _ _ htype (fun j h hh => ?_) (fun j hj => ?_) ?_
        · by_cases hj : j = trying
          · subst hj
            rw [hnew, hfree]
            constructor
            · intro hc
              exact absurd (Option.some.inj hc).symm hh
            · intro hc
              cases hc
          · rw [hrest j hj]
        · by_cases hjt : j = trying
          · exact hjt
          · rw [hrest j hjt] at hj
            exact (hmine j hj).elim
        · refine ⟨hnew, type, (htype _).trans htt, ?_⟩
          rw [hd1]
          unfold bindFirst
          split <;> rfl
    | scan trying i =>
      simp only at h
      obtain ⟨hfirst, type, htt, hslot⟩ := hown
      split at h
      · split at h
        · cases h
        · cases h
        · rename_i d2 pool2 hl
          cases h
          obtain ⟨hne, hfree, hnew, hrest, htype, first, second, hf, hsnd, hdiff, hd2⟩ :=
            tryLockSecond_spec hl
          rw [htt] at hf
          cases hf
          have hvf := hT trying type htt
          have hvs := hT i second hsnd
          have hslots : (d2.bottle = some trying ∨ d2.opener = some trying) ∧
              (d2.bottle = some i ∨ d2.opener = some i) := by
            rw [hd2]
            rcases hvs with hsB | hsO
            · have hfO : type ≠ ResourceType.Bottle := fun hc => hdiff (hsB.trans hc.symm)
              rw [if_neg hfO] at hslot
              simp [hsB, hslot]
            · have hfB : type = ResourceType.Bottle := by
                rcases hvf with hc | hc
                · exact hc
                · exact absurd (hsO.trans hc.symm) hdiff
              rw [if_pos hfB] at hslot
              simp [hsO, hslot]
          have hfirst2 : ownerAt pool2 trying = some tid := by
            rw [hrest trying (Ne.symm hne)]; exact hfirst
          refine safe_update hs hpc hd _ _ _ htype (fun j h hh => ?_) (fun j hj => ?_) ?_
          · by_cases hj : j = i
            · subst hj
              rw [hnew, hfree]
              constructor
              · intro hc
                exact absurd (Option.some.inj hc).symm hh
              · intro hc
                cases hc
            · rw [hrest j hj]
          · by_cases hji : j = i
            · subst hji
              exact hslots.2
            · rw [hrest j hji] at hj
              have : j = trying := hmine j hj
              subst this
              exact hslots.1
          · rcases hslots with ⟨h1 | h1, h2 | h2⟩
            · rw [h1] at h2
              exact absurd (Option.some.inj h2).symm hne
            · exact ⟨trying, i, h1, h2, Ne.symm hne, hfirst2, hnew⟩
            · exact ⟨i, trying, h2, h1, hne, hnew, hfirst2⟩
            · rw [h1] at h2
              exact absurd (Option.some.inj h2).symm hne
        · cases h
          exact safe_update hs hpc hd _ _ _ (fun _ => rfl) (fun _ _ _ => Iff.rfl)
            (fun j hj => hmine j hj) ⟨hfirst, type, htt, hslot⟩
      · split at h
        · cases h
        · rename_i pool' hu
          cases h
          obtain ⟨x, hx, hold, hnew, hrest, htype⟩ := unlockResource_spec hu
          cases hx
          refine safe_update hs hpc hd _ _ _ htype (fun j h hh => ?_) (fun j hj => ?_) trivial
          · by_cases hj : j = trying
            · subst hj
              rw [hnew, hold]
              constructor
              · intro hc
                cases hc
              · intro hc
                exact absurd (Option.some.inj hc).symm hh
            · rw [hrest j hj]
          · by_cases hjt : j = trying
            · subst hjt
              rw [hnew] at hj
              cases hj
            · rw [hrest j hjt] at hj
              exact absurd (hmine j hj) hjt
    | drink =>
      simp only at h
      obtain ⟨b, o, hb, ho, hbo, hob, hoo⟩ := hown
      split at h
      · cases h
      · rename_i pool1 h1
        split at h
        · cases h
        · rename_i pool2 h2
          split at h
          · cases h
          · rename_i pool3 h3
            cases h
            obtain ⟨ho1, ht1⟩ := useResource_spec h1
            obtain ⟨ho2, ht2⟩ := useResource_spec h2
            obtain ⟨x, hx, _, hnew, hrest, ht3⟩ := unlockResource_spec h3
            rw [hb] at hx
            cases hx
            have hsame : ∀ j, j ≠ b → ownerAt pool3 j = ownerAt m.world.poolOfResources j :=
              fun j hj => by rw [hrest j hj, ho2, ho1]
            refine safe_update hs hpc hd _ _ _
              (fun j => by rw [ht3, ht2, ht1]) (fun j h hh => ?_) (fun j hj => ?_) ?_
            · by_cases hj : j = b
              · subst hj
                rw [hnew, hob]
                constructor
                · intro hc
                  cases hc
                · intro hc
                  exact absurd (Option.some.inj hc).symm hh
              · rw [hsame j hj]
            · by_cases hjb : j = b
              · subst hjb
                rw [hnew] at hj
                cases hj
              · rw [hsame j hjb] at hj
                rcases hmine j hj with hc | hc
                · rw [hb] at hc
                  exact absurd (Option.some.inj hc).symm hjb
                · exact hc
            · exact ⟨o, ho, by rw [hsame o (Ne.symm hbo)]; exact hoo⟩
    | unlockOpener =>
      simp only at h
      obtain ⟨o, ho, hoo⟩ := hown
      split at h
      · cases h
      · rename_i pool4 h4
        split at h
        · cases h
        · cases h
          obtain ⟨x, hx, _, hnew, hrest, htype⟩ := unlockResource_spec h4
          rw [ho] at hx
          cases hx
          refine safe_update hs hpc hd _ _ _ htype (fun j h hh => ?_) (fun j hj => ?_) trivial
          · by_cases hj : j = o
            · subst hj
              rw [hnew, hoo]
              constructor
              · intro hc
                cases hc
              · intro hc
                exact absurd (Option.some.inj hc).symm hh
            · rw [hrest j hj]
          · by_cases hjo : j = o
            · subst hjo
              rw [hnew] at hj
              cases hj
            · rw [hrest j hjo] at hj
              have hc : d.opener = some j := hmine j hj
              rw [ho] at hc
              exact absurd (Option.some.inj hc).symm hjo
    | checkStop =>
      simp only at h
      split at h
      · cases h
        exact safe_update hs hpc hd _ _ _ (fun _ => rfl) (fun _ _ _ => Iff.rfl)
          (fun j hj => hmine j hj) trivial
      · cases h
        exact safe_update hs hpc hd _ _ _ (fun _ => rfl) (fun _ _ _ => Iff.rfl)
          (fun j hj => hmine j hj) trivial
    | stopped =>
      simp only at h
      cases h
      exact hs
  · cases h

theorem safe_of_initial {m : Machine} (h : m.initial) : m.safe := by
  obtain ⟨hw, hpcs⟩ := h
  have hfree : ∀ i, ownerAt m.world.poolOfResources i = none := by
    intro i
    unfold ownerAt
    split
    · rfl
    · rename_i r hr
      rw [(hw.1 r (List.getElem?_mem hr)).1]
      rfl
  refine ⟨fun j type hj => ?_, fun i h hi => ?_, fun h pc d hpc _ => ?_,
    by rw [hpcs, List.length_replicate]⟩
  · unfold typeAt at hj
    split at hj
    · cases hj
    · rename_i r hr
      cases hj
      exact (hw.1 r (List.getElem?_mem hr)).2
  · rw [hfree i] at hi
    cases hi
  · rw [hpcs] at hpc
    have := List.getElem?_mem hpc
    rw [List.mem_replicate] at this
    rw [this.2]
    trivial

theorem safe_fire {m m' : Machine} {e : Event} (hs : m.safe)
    (h : m.fire e = .returned m') : m'.safe := by
  cases e with
  | thread tid rnd ok => exact safe_step hs h
  | stop =>
    simp only [Machine.fire] at h
    cases h
    exact hs

/-- Every state the threads can reach is safe. -/
theorem safe_exec (events : List Event) :
    ∀ (m0 m : Machine), m0.safe → m0.exec events = .returned m → m.safe := by
  induction events with
  | nil =>
    intro m0 m h0 h
    unfold Machine.exec at h
    cases h
    exact h0
  | cons e rest ih =>
    intro m0 m h0 h
    unfold Machine.exec at h
    split at h
    · cases h
    · cases h
    · rename_i m1 h1
      exact ih m1 m (safe_fire h0 h1) h

/-- A thread waits only in the `lock()` of its first pick, on a mutex another thread owns. -/
theorem step_blocked {m : Machine} {t rnd : Nat} {ok : Bool}
    (h : m.step t rnd ok = .blocked) :
    ∃ r other, m.pcs[t]? = some (Pc.lockFirst r) ∧ other ≠ t ∧
      ownerAt m.world.poolOfResources r = some other := by
  unfold Machine.step at h
  split at h
  · rename_i pc d hpc hd
    cases pc with
    | tryToDrink =>
      simp only at h
      split at h <;> cases h
    | lockFirst trying =>
      simp only at h
      split at h
      · cases h
      · rename_i hl
        obtain ⟨other, hne, hown⟩ := lockFirst_blocked hl
        exact ⟨trying, other, hpc, hne, hown⟩
      · cases h
    | scan trying i =>
      simp only at h
      split at h
      · split at h
        · cases h
        · rename_i hl
          exact absurd hl (tryLockSecond_ne_blocked _ _ _ _ _ _)
        · cases h
        · cases h
      · split at h <;> cases h
    | drink =>
      simp only at h
      split at h
      · cases h
      · split at h
        · cases h
        · split at h <;> cases h
    | unlockOpener =>
      simp only at h
      split at h
      · cases h
      · split at h <;> cases h
    | checkStop =>
      simp only at h
      split at h <;> cases h
    | stopped =>
      simp only at h
      cases h
  · cases h

theorem remaining_pos_of_holds {m : Machine} {h : Nat} {pc : Pc} {d : Drinker} {i : Nat}
    (hpc : m.pcs[h]? = some pc) (hh : pc.holds d i) : 0 < m.remaining h := by
  unfold Machine.remaining
  rw [hpc]
  cases pc with
  | scan trying j => simp [Pc.bound]
  | drink => simp [Pc.bound]
  | unlockOpener => simp [Pc.bound]
  | tryToDrink => exact hh.elim
  | lockFirst trying => exact hh.elim
  | checkStop => exact hh.elim
  | stopped => exact hh.elim

theorem not_lockFirst_of_remaining_pos {m : Machine} {h : Nat} (hr : 0 < m.remaining h)
    (r : Nat) : m.pcs[h]? ≠ some (Pc.lockFirst r) := by
  intro hc
  unfold Machine.remaining at hr
  rw [hc] at hr
  simp [Pc.bound] at hr

theorem lockFirst_total {tid trying : Nat} {d d1 : Drinker} {pool pool1 : ResourcePool}
    (h : lockFirst tid d pool trying = .returned (d1, pool1)) :
    pool1.totalResources = pool.totalResources := by
  obtain ⟨f, _, _, _, _, hp⟩ := lockFirst_returned h
  rw [hp]; rfl

theorem tryLockSecond_total {tid trying : Nat} {ok : Bool} {i : Nat} {d d2 : Drinker}
    {pool pool2 : ResourcePool}
    (h : tryLockSecond tid trying ok i d pool = .returned (some (d2, pool2))) :
    pool2.totalResources = pool.totalResources := by
  rcases tryLockSecond_returned h with hc | ⟨f, s, _, _, _, _, _, _, _, hres⟩
  · cases hc
  · simp only [Option.some.injEq, Prod.mk.injEq] at hres
    rw [hres.2]; rfl

theorem unlockResource_total {tid : Nat} {pool pool' : ResourcePool} {p : Option Nat}
    (h : unlockResource tid pool p = some pool') :
    pool'.totalResources = pool.totalResources := by
  obtain ⟨i, r, _, _, _, hp⟩ := unlockResource_eq_some h
  rw [hp]; rfl

theorem useResource_total {pool pool' : ResourcePool} {p : Option Nat}
    (h : useResource pool p = some pool') :
    pool'.totalResources = pool.totalResources := by
  obtain ⟨i, r, _, _, _, hp⟩ := useResource_eq_some h
  rw [hp]; rfl

theorem remaining_eq_bound {m : Machine} {t : Nat} {pc : Pc} (h : m.pcs[t]? = some pc) :
    m.remaining t = pc.bound m.world.poolOfResources.totalResources := by
  unfold Machine.remaining
  rw [h]

theorem remaining_update {m : Machine} {t : Nat} {pc0 : Pc} (h : m.pcs[t]? = some pc0)
    (d : Drinker) (pool : ResourcePool) (pc : Pc) :
    (m.update t d pool pc).remaining t = pc.bound pool.totalResources :=
  remaining_eq_bound (update_pcs_self h d pool pc)

/-- A step of a thread that owns a mutex brings it closer to owning none. -/
theorem remaining_decreases {m m' : Machine} {t rnd : Nat} {ok : Bool}
    (hr : 0 < m.remaining t) (h : m.step t rnd ok = .returned m') :
    m'.remaining t < m.remaining t := by
  unfold Machine.step at h
  split at h
  · rename_i pc d hpc hd
    rw [remaining_eq_bound hpc] at hr ⊢
    cases pc with
    | tryToDrink => simp [Pc.bound] at hr
    | lockFirst trying => simp [Pc.bound] at hr
    | checkStop => simp [Pc.bound] at hr
    | stopped => simp [Pc.bound] at hr
    | scan trying i =>
      simp only at h
      split at h
      · rename_i hlt
        split at h
        · cases h
        · cases h
        · cases h
          rw [remaining_update hpc]
          simp only [Pc.bound]
          omega
        · cases h
          rw [remaining_update hpc]
          simp only [Pc.bound]
          omega
      · split at h
        · cases h
        · cases h
          rw [remaining_update hpc]
          simp only [Pc.bound]
          omega
    | drink =>
      simp only at h
      split at h
      · cases h
      · split at h
        · cases h
        · split at h
          · cases h
          · cases h
            rw [remaining_update hpc]
            simp only [Pc.bound]
            omega
    | unlockOpener =>
      simp only at h
      split at h
      · cases h
      · split at h
        · cases h
        · cases h
          rw [remaining_update hpc]
          simp only [Pc.bound]
          omega
  · cases h

theorem update_remaining_ne (m : Machine) {t h : Nat} (hne : h ≠ t) (d : Drinker)
    {pool : ResourcePool} (pc : Pc)
    (htot : pool.totalResources = m.world.poolOfResources.totalResources) :
    (m.update t d pool pc).remaining h = m.remaining h := by
  unfold Machine.remaining
  rw [update_pcs_ne m hne]
  show (match m.pcs[h]? with
    | some pc => pc.bound pool.totalResources
    | none => 0) = _
  rw [htot]

/-- A step of one thread leaves the bound of every other thread as it is. -/
theorem remaining_others {m m' : Machine} {t h rnd : Nat} {ok : Bool} (hne : h ≠ t)
    (hstep : m.step t rnd ok = .returned m') : m'.remaining h = m.remaining h := by
  unfold Machine.step at hstep
  split at hstep
  · rename_i pc d hpc hd
    cases pc with
    | tryToDrink =>
      simp only at hstep
      split at hstep
      · cases hstep
      · cases hstep
        exact update_remaining_ne m hne _ _ rfl
    | lockFirst trying =>
      simp only at hstep
      split at hstep
      · cases hstep
      · cases hstep
      · rename_i hl
        cases hstep
        exact update_remaining_ne m hne _ _ (lockFirst_total hl)
    | scan trying i =>
      simp only at hstep
      split at hstep
      · split at hstep
        · cases hstep
        · cases hstep
        · rename_i hl
          cases hstep
          exact update_remaining_ne m hne _ _ (tryLockSecond_total hl)
        · cases hstep
          exact update_remaining_ne m hne _ _ rfl
      · split at hstep
        · cases hstep
        · rename_i hu
          cases hstep
          exact update_remaining_ne m hne _ _ (unlockResource_total hu)
    | drink =>
      simp only at hstep
      split at hstep
      · cases hstep
      · rename_i h1
        split at hstep
        · cases hstep
        · rename_i h2
          split at hstep
          · cases hstep
          · rename_i h3
            cases hstep
            exact update_remaining_ne m hne _ _
              ((unlockResource_total h3).trans
                ((useResource_total h2).trans (useResource_total h1)))
    | unlockOpener =>
      simp only at hstep
      split at hstep
      · cases hstep
      · rename_i h4
        split at hstep
        · cases hstep
        · cases hstep
          exact update_remaining_ne m hne _ _ (unlockResource_total h4)
    | checkStop =>
      simp only at hstep
      split at hstep
      · cases hstep
        exact update_remaining_ne m hne _ _ rfl
      · cases hstep
        exact update_remaining_ne m hne _ _ rfl
    | stopped =>
      simp only at hstep
      cases hstep
      rfl
  · cases hstep

theorem ownerAt_eq_some {pool : ResourcePool} {i h : Nat} (hi : ownerAt pool i = some h) :
    ∃ r, pool.resources[i]? = some r ∧ r.resourceMutex = some h := by
  unfold ownerAt at hi
  split at hi
  · cases hi
  · rename_i r hr
    exact ⟨r, hr, hi⟩

/-- A thread that owns a mutex can take its next step when `totalResources` is at most the
size of the vector and no counter is at `INT_MAX`. -/
theorem holder_step_defined {m : Machine} (hs : m.safe) {h : Nat} (hr : 0 < m.remaining h)
    (hlen : m.world.poolOfResources.totalResources ≤ m.world.poolOfResources.resources.length)
    (hres : ∀ r ∈ m.world.poolOfResources.resources,
      r.lockCount < INT_MAX ∧ r.useCount < INT_MAX)
    (hdr : ∀ d ∈ m.world.poolOfDrinkers.drinkers, d.drinkCount < INT_MAX)
    (rnd : Nat) (ok : Bool) : ∃ m', m.step h rnd ok = .returned m' := by
  obtain ⟨pc, hpc⟩ : ∃ pc, m.pcs[h]? = some pc := by
    unfold Machine.remaining at hr
    split at hr
    · rename_i pc hpc
      exact ⟨pc, hpc⟩
    · simp at hr
  have hlt : h < m.world.poolOfDrinkers.drinkers.length := by
    rcases List.getElem?_eq_some.mp hpc with ⟨hlt, _⟩
    rw [← hs.2.2.2]
    exact hlt
  obtain ⟨d, hd⟩ : ∃ d, m.world.poolOfDrinkers.drinkers[h]? = some d :=
    ⟨_, List.getElem?_eq_getElem hlt⟩
  have hown := hs.2.2.1 h pc d hpc hd
  rw [remaining_eq_bound hpc] at hr
  unfold Machine.step
  simp only [hpc, hd]
  cases pc with
  | tryToDrink => simp [Pc.bound] at hr
  | lockFirst trying => simp [Pc.bound] at hr
  | checkStop => simp [Pc.bound] at hr
  | stopped => simp [Pc.bound] at hr
  | scan trying i =>
    obtain ⟨hfirst, _⟩ := hown
    obtain ⟨f, hf, hfm⟩ := ownerAt_eq_some hfirst
    simp only
    split
    · rename_i hi
      have hil : i < m.world.poolOfResources.resources.length := by omega
      obtain ⟨s, hs'⟩ : ∃ s, m.world.poolOfResources.resources[i]? = some s :=
        ⟨_, List.getElem?_eq_getElem hil⟩
      obtain ⟨res, hres'⟩ := tryLockSecond_defined h ok d hf hs'
        (fun _ => (hres s (List.getElem?_mem hs')).1)
      rw [hres']
      cases res with
      | none => exact ⟨_, rfl⟩
      | some x => exact ⟨_, rfl⟩
    · rw [unlockResource_defined hf hfm]
      exact ⟨_, rfl⟩
  | drink =>
    obtain ⟨b, o, hb, ho, hbo, hob, hoo⟩ := hown
    obtain ⟨rb, hrb, hmb⟩ := ownerAt_eq_some hob
    obtain ⟨ro, hro, hmo⟩ := ownerAt_eq_some hoo
    have hro1 : (m.world.poolOfResources.store b
        { rb with useCount := rb.useCount + 1 }).resources[o]? = some ro := by
      rw [store_get_ne _ _ hbo]; exact hro
    have hrb2 : ((m.world.poolOfResources.store b
        { rb with useCount := rb.useCount + 1 }).store o
        { ro with useCount := ro.useCount + 1 }).resources[b]?
        = some { rb with useCount := rb.useCount + 1 } := by
      rw [store_get_ne _ _ (Ne.symm hbo)]; exact store_get_self _ hrb
    simp only [hb, ho]
    rw [useResource_defined hrb (hres rb (List.getElem?_mem hrb)).2]
    simp only
    rw [useResource_defined hro1 (hres ro (List.getElem?_mem hro)).2]
    simp only
    rw [unlockResource_defined hrb2 hmb]
    exact ⟨_, rfl⟩
  | unlockOpener =>
    obtain ⟨o, ho, hoo⟩ := hown
    obtain ⟨ro, hro, hmo⟩ := ownerAt_eq_some hoo
    simp only [ho]
    rw [unlockResource_defined hro hmo]
    simp only [increment_of_lt (hdr d (List.getElem?_mem hd))]
    exact ⟨_, rfl⟩

theorem step_ne_blocked_of_remaining {m : Machine} {h : Nat} (hr : 0 < m.remaining h)
    (rnd : Nat) (ok : Bool) : m.step h rnd ok ≠ .blocked := by
  intro hb
  obtain ⟨r, _, hpc, _⟩ := step_blocked hb
  exact not_lockFirst_of_remaining_pos hr r hpc

/-- C4: in every state the threads reach from the start of `StartDrinker`, in any
interleaving, with any number of threads and any pool: a thread that waits does so in the
`lock()` of its first pick and owns no mutex; the owner of that mutex is another thread,
which owns a mutex and never waits; every step of a thread that owns a mutex lowers its
bound `remaining`, no step of another thread changes that bound, and a thread whose bound
is 0 owns no mutex; and a thread that owns a mutex can take its next step when
`totalResources` is at most the size of the vector and no counter is at `INT_MAX`.  So
the threads are never all waiting, and a mutex is released after at most
`totalResources + 3` steps of its owner. -/
theorem no_deadlock (m0 m : Machine) (events : List Event) (h0 : m0.initial)
    (hexec : m0.exec events = .returned m) :
    (∀ t rnd ok, m.step t rnd ok = .blocked →
      (∀ i, ownerAt m.world.poolOfResources i ≠ some t) ∧
      ∃ r h, m.pcs[t]? = some (Pc.lockFirst r) ∧
        ownerAt m.world.poolOfResources r = some h ∧ h ≠ t ∧ 0 < m.remaining h ∧
        ∀ rnd' ok', m.step h rnd' ok' ≠ .blocked) ∧
    (∀ h, m.remaining h ≤ m.world.poolOfResources.totalResources.toNat + 3) ∧
    (∀ h rnd ok m', 0 < m.remaining h → m.step h rnd ok = .returned m' →
      m'.remaining h < m.remaining h) ∧
    (∀ h t rnd ok m', h ≠ t → m.step t rnd ok = .returned m' →
      m'.remaining h = m.remaining h) ∧
    (∀ h, m.remaining h = 0 → ∀ i, ownerAt m.world.poolOfResources i ≠ some h) ∧
    (m.world.poolOfResources.totalResources ≤ m.world.poolOfResources.resources.length →
      (∀ r ∈ m.world.poolOfResources.resources,
        r.lockCount < INT_MAX ∧ r.useCount < INT_MAX) →
      (∀ d ∈ m.world.poolOfDrinkers.drinkers, d.drinkCount < INT_MAX) →
      ∀ h rnd ok, 0 < m.remaining h → ∃ m', m.step h rnd ok = .returned m') := by
  have hs : m.safe := safe_exec events m0 m (safe_of_initial h0) hexec
  have hpos : ∀ i h, ownerAt m.world.poolOfResources i = some h → 0 < m.remaining h := by
    intro i h hi
    obtain ⟨pc, d, hpc, _, hh⟩ := hs.2.1 i h hi
    exact remaining_pos_of_holds hpc hh
  refine ⟨fun t rnd ok hb => ?_, fun h => ?_, fun h rnd ok m' hr hstep => ?_,
    fun h t rnd ok m' hne hstep => ?_, fun h hz i hi => ?_,
    fun hlen hres hdr h rnd ok hr => ?_⟩
  · obtain ⟨r, other, hpc, hne, hown⟩ := step_blocked hb
    refine ⟨fun i hi => ?_, r, other, hpc, hown, hne, hpos r other hown,
      fun rnd' ok' => step_ne_blocked_of_remaining (hpos r other hown) rnd' ok'⟩
    exact not_lockFirst_of_remaining_pos (hpos i t hi) r hpc
  · unfold Machine.remaining
    split
    · rename_i pc _
      cases pc <;> simp only [Pc.bound] <;> omega
    · omega
  · exact remaining_decreases hr hstep
  · exact remaining_others hne hstep
  · have := hpos i h hi
    omega
  · exact holder_step_defined hs hr hlen hres hdr rnd ok

/-! ## The steps of one thread make up the calls -/

theorem machine_update_update (m : Machine) (t : Nat) (d d' : Drinker)
    (pool pool' : ResourcePool) (pc pc' : Pc) :
    (m.update t d pool pc).update t d' pool' pc' = m.update t d' pool' pc' := by
  simp [Machine.update, World.update, List.set_set]

theorem exec_cons {m m1 m2 : Machine} {e : Event} {rest : List Event}
    (h1 : m.fire e = .returned m1) (h2 : m1.exec rest = .returned m2) :
    m.exec (e :: rest) = .returned m2 := by
  unfold Machine.exec
  rw [h1]
  exact h2

/-- The steps of thread `t` at the loop test run the rest of the scan as `secondScan` does. -/
theorem scan_steps (t trying : Nat) (tryLockOk : Nat → Bool) (b : Bool) (d' : Drinker)
    (pool' : ResourcePool) :
    ∀ (k i : Nat) (m : Machine) (d1 : Drinker),
      m.pcs[t]? = some (Pc.scan trying i) →
      m.world.poolOfDrinkers.drinkers[t]? = some d1 →
      i + k = m.world.poolOfResources.totalResources.toNat →
      secondScan t trying tryLockOk (List.range' i k) d1 m.world.poolOfResources
        = .returned (b, d', pool') →
      ∃ events, (∀ e ∈ events, ∃ rnd ok, e = Event.thread t rnd ok) ∧
        m.exec events
          = .returned (m.update t d' pool' (if b = true then Pc.drink else Pc.checkStop)) := by
  intro k
  induction k with
  | zero =>
    intro i m d1 hpc hd hik h
    simp only [List.range'] at h
    unfold secondScan at h
    split at h
    · cases h
    · rename_i p hp
      cases h
      refine ⟨[Event.thread t 0 true], ?_, ?_⟩
      · intro e he
        simp only [List.mem_singleton] at he
        exact ⟨0, true, he⟩
      · have hge : ¬ ((i : Int) < m.world.poolOfResources.totalResources) := by omega
        have hfire : m.fire (Event.thread t 0 true)
            = .returned (m.update t d' pool' Pc.checkStop) := by
          simp only [Machine.fire, Machine.step, hpc, hd, hge, if_false, hp]
        exact exec_cons hfire rfl
  | succ k ih =>
    intro i m d1 hpc hd hik h
    simp only [List.range'] at h
    unfold secondScan at h
    have hlt : (i : Int) < m.world.poolOfResources.totalResources := by omega
    split at h
    · cases h
    · cases h
    · rename_i d2 p2 hstep
      cases h
      refine ⟨[Event.thread t 0 (tryLockOk i)], ?_, ?_⟩
      · intro e he
        simp only [List.mem_singleton] at he
        exact ⟨0, tryLockOk i, he⟩
      · have hfire : m.fire (Event.thread t 0 (tryLockOk i))
            = .returned (m.update t d' pool' Pc.drink) := by
          simp only [Machine.fire, Machine.step, hpc, hd, hlt, if_true, hstep]
        exact exec_cons hfire rfl
    · rename_i hstep
      have hfire : m.fire (Event.thread t 0 (tryLockOk i))
          = .returned (m.update t d1 m.world.poolOfResources (Pc.scan trying (i + 1))) := by
        simp only [Machine.fire, Machine.step, hpc, hd, hlt, if_true, hstep]
      obtain ⟨events, hall, hexec⟩ := ih (i + 1)
        (m.update t d1 m.world.poolOfResources (Pc.scan trying (i + 1))) d1
        (update_pcs_self hpc _ _ _) (update_drinkers_self hd _ _ _)
        (by show i + 1 + k = m.world.poolOfResources.totalResources.toNat; omega) h
      rw [machine_update_update] at hexec
      refine ⟨Event.thread t 0 (tryLockOk i) :: events, ?_, exec_cons hfire hexec⟩
      intro e he
      rcases List.mem_cons.mp he with rfl | he
      · exact ⟨0, tryLockOk i, rfl⟩
      · exact hall e he

/-- The steps of a thread make up `TryToGetResources`: when the call returns for the drinker
and the pool of a thread that stands before `TryToDrink`, steps of that thread alone lead
to the result of the call, at `Drink` when it returned true and at the test of the stop
flag when it returned false. -/
theorem steps_make_TryToGetResources {m : Machine} {t rnd : Nat} {tryLockOk : Nat → Bool}
    {d d' : Drinker} {pool' : ResourcePool} {b : Bool}
    (hpc : m.pcs[t]? = some Pc.tryToDrink)
    (hd : m.world.poolOfDrinkers.drinkers[t]? = some d)
    (h : TryToGetResources t d m.world.poolOfResources rnd tryLockOk
      = .returned (b, d', pool')) :
    ∃ events, (∀ e ∈ events, ∃ rnd ok, e = Event.thread t rnd ok) ∧
      m.exec events
        = .returned (m.update t d' pool' (if b = true then Pc.drink else Pc.checkStop)) := by
  unfold TryToGetResources at h
  simp only at h
  split at h
  · cases h
  · rename_i htot
    split at h
    · cases h
    · cases h
    · rename_i d1 pool1 hlock
      have hfire1 : m.fire (Event.thread t rnd true)
          = .returned (m.update t d m.world.poolOfResources
              (Pc.lockFirst (Int.tmod (rnd : Int) m.world.poolOfResources.totalResources).toNat)) := by
        simp only [Machine.fire, Machine.step, hpc, hd, htot, if_false]
      have hfire2 : (m.update t d m.world.poolOfResources
          (Pc.lockFirst (Int.tmod (rnd : Int) m.world.poolOfResources.totalResources).toNat)).fire
            (Event.thread t 0 true)
          = .returned (m.update t d1 pool1
              (Pc.scan (Int.tmod (rnd : Int) m.world.poolOfResources.totalResources).toNat 0)) := by
        simp only [Machine.fire, Machine.step, update_pcs_self hpc, update_drinkers_self hd]
        have : (m.update t d m.world.poolOfResources
            (Pc.lockFirst (Int.tmod (rnd : Int) m.world.poolOfResources.totalResources).toNat)
            ).world.poolOfResources = m.world.poolOfResources := rfl
        simp only [this, hlock, machine_update_update]
      have htot1 : pool1.totalResources = m.world.poolOfResources.totalResources :=
        lockFirst_total hlock
      rw [List.range_eq_range'] at h
      obtain ⟨events, hall, hexec⟩ := scan_steps t _ tryLockOk b d' pool'
        m.world.poolOfResources.totalResources.toNat 0
        (m.update t d1 pool1
          (Pc.scan (Int.tmod (rnd : Int) m.world.poolOfResources.totalResources).toNat 0)) d1
        (update_pcs_self hpc _ _ _) (update_drinkers_self hd _ _ _)
        (by show 0 + _ = pool1.totalResources.toNat; rw [htot1]; omega) h
      rw [machine_update_update] at hexec
      refine ⟨Event.thread t rnd true :: Event.thread t 0 true :: events, ?_,
        exec_cons hfire1 (exec_cons hfire2 hexec)⟩
      intro e he
      rcases List.mem_cons.mp he with rfl | he
      · exact ⟨rnd, true, rfl⟩
      · rcases List.mem_cons.mp he with rfl | he
        · exact ⟨0, true, rfl⟩
        · exact hall e he

/-- The steps of a thread make up `Drink`: two steps of a thread that stands at `Drink`
lead to the result of the call. -/
theorem steps_make_Drink {m : Machine} {t r1 r2 r3 : Nat} {d d' : Drinker}
    {pool' : ResourcePool} {sleeps : List Sleep}
    (hpc : m.pcs[t]? = some Pc.drink)
    (hd : m.world.poolOfDrinkers.drinkers[t]? = some d)
    (h : Drink t d m.world.poolOfResources r1 r2 r3 = .returned (d', pool', sleeps)) :
    m.exec [Event.thread t 0 true, Event.thread t 0 true]
      = .returned (m.update t d' pool' Pc.checkStop) := by
  unfold Drink at h
  simp only at h
  split at h
  · cases h
  · rename_i p1 h1
    split at h
    · cases h
    · rename_i p2 h2
      split at h
      · cases h
      · rename_i p3 h3
        split at h
        · cases h
        · rename_i p4 h4
          split at h
          · cases h
          · rename_i dc hdc
            cases h
            have hfire1 : m.fire (Event.thread t 0 true)
                = .returned (m.update t d p3 Pc.unlockOpener) := by
              simp only [Machine.fire, Machine.step, hpc, hd, h1, h2, h3]
            have hfire2 : (m.update t d p3 Pc.unlockOpener).fire (Event.thread t 0 true)
                = .returned (m.update t
                    { d with bottle := none, opener := none, drinkCount := dc } pool'
                    Pc.checkStop) := by
              simp only [Machine.fire, Machine.step, update_pcs_self hpc,
                update_drinkers_self hd]
              have : (m.update t d p3 Pc.unlockOpener).world.poolOfResources = p3 := rfl
              simp only [this, h4, hdc, machine_update_update]
            exact exec_cons hfire1 (exec_cons hfire2 rfl)

/-! ## The theorems on small runs -/

theorem TryToGetResources_true_binds_bottle_and_opener_witness :
    (∀ r ∈ bottleAndOpener.resources,
      r.type = ResourceType.Bottle ∨ r.type = ResourceType.Opener) ∧
    1 ≤ bottleAndOpener.totalResources ∧
    TryToGetResources 0 (Drinker.new 0) bottleAndOpener 0 (fun _ => true)
      = .returned (true, drinkerWithBoth, bottleAndOpenerLocked) ∧
    ∃ b o rb ro rb0 ro0, drinkerWithBoth.bottle = some b ∧ drinkerWithBoth.opener = some o ∧
      b ≠ o ∧
      (b : Int) < bottleAndOpener.totalResources ∧ (o : Int) < bottleAndOpener.totalResources ∧
      bottleAndOpenerLocked.resources[b]? = some rb ∧ rb.type = ResourceType.Bottle ∧
      bottleAndOpenerLocked.resources[o]? = some ro ∧ ro.type = ResourceType.Opener ∧
      ((b : Int) = ((0 : Nat) : Int) % bottleAndOpener.totalResources ∨
        (o : Int) = ((0 : Nat) : Int) % bottleAndOpener.totalResources) ∧
      bottleAndOpener.resources[b]? = some rb0 ∧ rb0.resourceMutex = none ∧
      bottleAndOpener.resources[o]? = some ro0 ∧ ro0.resourceMutex = none ∧
      rb.resourceMutex = some 0 ∧ ro.resourceMutex = some 0 :=
  ⟨by decide, by decide, by decide,
    TryToGetResources_true_binds_bottle_and_opener 0 (Drinker.new 0) drinkerWithBoth
      bottleAndOpener bottleAndOpenerLocked 0 (fun _ => true) (by decide) (by decide)
      (by decide)⟩

theorem TryToDrink_release_discipline_witness :
    holdsNoLock 0 bottleAndOpener ∧
    TryToDrink 0 (Drinker.new 0) bottleAndOpener 0 (fun _ => true) 7 8 9
      = .returned (true, { Drinker.new 0 with drinkCount := 1 }, bottleAndOpenerUsed,
          [Sleep.drinkTime 27]) ∧
    holdsNoLock 0 bottleAndOpenerUsed ∧
    ∀ j, ownerAt bottleAndOpenerUsed j = ownerAt bottleAndOpener j :=
  ⟨by decide, by decide,
    ((TryToDrink_release_discipline 0 (Drinker.new 0) bottleAndOpener 0 (fun _ => true) 7 8 9
      (by decide)).1 true { Drinker.new 0 with drinkCount := 1 } bottleAndOpenerUsed
      [Sleep.drinkTime 27] (by decide)).1,
    ((TryToDrink_release_discipline 0 (Drinker.new 0) bottleAndOpener 0 (fun _ => true) 7 8 9
      (by decide)).1 true { Drinker.new 0 with drinkCount := 1 } bottleAndOpenerUsed
      [Sleep.drinkTime 27] (by decide)).2.1⟩

theorem no_deadlock_witness :
    twoThreads.initial ∧ twoThreads.exec contention = .returned afterContention ∧
    afterContention.step 1 0 true = .blocked ∧
    (∀ i, ownerAt afterContention.world.poolOfResources i ≠ some 1) ∧
    ∃ r h, afterContention.pcs[1]? = some (Pc.lockFirst r) ∧
      ownerAt afterContention.world.poolOfResources r = some h ∧ h ≠ 1 ∧
      0 < afterContention.remaining h ∧
      ∀ rnd' ok', afterContention.step h rnd' ok' ≠ .blocked :=
  ⟨by decide, by decide, by decide,
    (no_deadlock twoThreads afterContention contention (by decide) (by decide)).1 1 0 true
      (by decide)⟩

theorem global_conservation_witness :
    twoOnBottleAndOpener.initial ∧
    twoOnBottleAndOpener.run threeCalls = .returned afterThreeCalls ∧
    sumUseCount ResourceType.Bottle afterThreeCalls.poolOfResources
      = sumUseCount ResourceType.Opener afterThreeCalls.poolOfResources ∧
    sumUseCount ResourceType.Opener afterThreeCalls.poolOfResources
      = sumDrinkCount afterThreeCalls.poolOfDrinkers.drinkers :=
  ⟨by decide, by decide,
    global_conservation twoOnBottleAndOpener afterThreeCalls threeCalls (by decide)
      (by decide)⟩

theorem lockCount_ge_useCount_witness :
    twoOnBottleAndOpener.initial ∧
    twoOnBottleAndOpener.run threeCalls = .returned afterThreeCalls ∧
    ∀ r ∈ afterThreeCalls.poolOfResources.resources, r.lockCount ≥ r.useCount :=
  ⟨by decide, by decide,
    lockCount_ge_useCount twoOnBottleAndOpener afterThreeCalls threeCalls (by decide)
      (by decide)⟩

theorem degenerate_pool_never_drinks_witness :
    twoOnTwoBottles.initial ∧
    (∀ r ∈ twoOnTwoBottles.poolOfResources.resources, r.type = ResourceType.Bottle) ∧
    twoOnTwoBottles.run twoDryCalls = .returned afterTwoDryCalls ∧
    (∀ d ∈ afterTwoDryCalls.poolOfDrinkers.drinkers, d.drinkCount = 0) ∧
    (∀ r ∈ afterTwoDryCalls.poolOfResources.resources, r.useCount = 0) :=
  ⟨by decide, by decide, by decide,
    (degenerate_pool_never_drinks twoOnTwoBottles afterTwoDryCalls ResourceType.Bottle
      twoDryCalls (by decide) (by decide) (by decide)).1,
    (degenerate_pool_never_drinks twoOnTwoBottles afterTwoDryCalls ResourceType.Bottle
      twoDryCalls (by decide) (by decide) (by decide)).2.1⟩

theorem Drink_extra_pause_witness :
    Drink 0 { drinkerWithBoth with drinkCount := 9 } bottleAndOpenerLocked 7 8 9
      = .returned ({ Drinker.new 0 with drinkCount := 10 }, bottleAndOpenerUsed,
          [Sleep.drinkTime 27, Sleep.drunkTime 48]) ∧
    ∀ ms, Sleep.bathroomTime ms ∉ [Sleep.drinkTime 27, Sleep.drunkTime 48] :=
  ⟨by decide,
    (Drink_extra_pause 0 { drinkerWithBoth with drinkCount := 9 }
      { Drinker.new 0 with drinkCount := 10 } bottleAndOpenerLocked
      bottleAndOpenerUsed 7 8 9 [Sleep.drinkTime 27, Sleep.drunkTime 48] (by decide)).2.2.2⟩

/-- C2, on the code: `DrinkingGame 1 1 0`.  The only thread locks the bottle, finds no
opener, unlocks the bottle and returns false; its bottle slot still points to the bottle,
whose mutex is free. -/
theorem TryToGetResources_false_leaves_slot_set :
    TryToGetResources 0 (Drinker.new 0) oneBottle 0 (fun _ => true)
      = .returned (false, { Drinker.new 0 with bottle := some 0 },
          { totalResources := 1,
            resources := [{ Resource.new 0 ResourceType.Bottle with lockCount := 1 }] }) ∧
    ({ Drinker.new 0 with bottle := some 0 } : Drinker).bottle ≠ none := by
  decide

/-- C9, on the code: after three calls of `TryToDrink` that return true, the
`resourceTryCount` of the thread is still 0; no statement of the program writes it. -/
theorem resourceTryCount_stays_zero :
    twoOnBottleAndOpener.run threeDrinks = .returned
      { poolOfDrinkers := { twoDrinkers with
          drinkers := [{ Drinker.new 0 with drinkCount := 3, resourceTryCount := 0 },
                       Drinker.new 1] },
        poolOfResources :=
          { totalResources := 2,
            resources :=
              [{ Resource.new 0 ResourceType.Bottle with useCount := 3, lockCount := 3 },
               { Resource.new 1 ResourceType.Opener with useCount := 3, lockCount := 3 }] } } := by
  decide

/-- C8, on the code: `DrinkingGame 1 b o` with the driver already in
`WaitForAllDrinkersToBeReady`.  The driver sleeps on `drinkerCountCondition`; the thread
that makes `drinkerCount` equal to `totalDrinkers` notifies `startingGunCondition` and
nothing else.  The block that counts a thread out does notify `drinkerCountCondition`. -/
theorem signalReady_notifies_startingGunCondition :
    WaitForAllDrinkersToBeReady oneDrinkerNotReady = some Condition.drinkerCountCondition ∧
    signalReady oneDrinkerNotReady
      = some ({ oneDrinkerNotReady with drinkerCount := 1 },
          [Condition.startingGunCondition]) ∧
    ({ oneDrinkerNotReady with drinkerCount := 1 } : DrinkerPool).drinkerCount
      = oneDrinkerNotReady.totalDrinkers ∧
    Condition.drinkerCountCondition ∉ [Condition.startingGunCondition] ∧
    signalDone { oneDrinkerNotReady with drinkerCount := 1 }
      = some (oneDrinkerNotReady, [Condition.drinkerCountCondition]) := by
  decide

end DrinkingGame
